import Mathlib

/-!
Shallow embedding of the order-form core logic of this repository
(src/src/components/OrderForm.jsx, canonical variant: the component that
normalizes the catalog; see spec section 9, the earlier partially
overlapping variant in the same file is superseded).

JavaScript numbers are embedded as exact rationals.  JavaScript values
(raw catalog records) are embedded as a tagged tree value, the shape the
specification itself recommends in its design notes: Null (also standing
for undefined), Number, String, List and Map (a Map is a list of
key/value pairs in key iteration order, which also models object key
order).  Reference cycles cannot occur in this tree type; a separate
explicit heap-graph embedding below (GVal / JsHeap) models container
references and the visited-set guard for the termination claim about
cyclic records.

Modelling notes, checked against the source:
- The regex character class used for cleaning removes every occurrence
  of the characters R and the dollar sign and every whitespace character.
- JavaScript Number parsing is modelled for plain decimal strings
  (optional sign, digits, one optional dot); exponent, hexadecimal and
  Infinity forms are not modelled, and no claim exercises them.
  Number of the empty string is 0, as in JavaScript.
- Stringification of containers (String of an object) inside the numeric
  parser yields a non-numeric text in JavaScript, hence no value; the
  embedding returns no value for containers directly.  The array corner
  case (String of an array joins its elements) is not modelled and no
  claim exercises it.
-/

/-- ASCII decimal digit test. -/
def isDigitCh (c : Char) : Bool := '0' ≤ c && c ≤ '9'

/-- Whitespace characters handled by the JavaScript regexes and trim
(space, tab, line feed, carriage return). -/
def isWsCh (c : Char) : Bool := c = ' ' || c = '\t' || c = '\n' || c = '\r'

/-- ASCII lower-casing of a single character; the source only compares
ASCII field names. -/
def lowerCh (c : Char) : Char :=
  if 'A' ≤ c && c ≤ 'Z' then Char.ofNat (c.toNat + 32) else c

/-- ASCII alphanumeric test, the character class kept by normalizeKey. -/
def isAlnumCh (c : Char) : Bool :=
  ('a' ≤ c && c ≤ 'z') || ('A' ≤ c && c ≤ 'Z') || isDigitCh c

/-- Trim leading and trailing whitespace from a character list
(String.prototype.trim). -/
def trimChars (cs : List Char) : List Char :=
  ((cs.dropWhile isWsCh).reverse.dropWhile isWsCh).reverse

/-- Value of a list of decimal digit characters. -/
def natOfDigits (cs : List Char) : Nat :=
  cs.foldl (fun n c => 10 * n + (c.toNat - 48)) 0

/-- Does the first list occur as a leading segment of the second list. -/
def startsWithChars : List Char → List Char → Bool
  | [], _ => true
  | _ :: _, [] => false
  | a :: as, b :: bs => a = b && startsWithChars as bs

/-- Does the first list occur contiguously anywhere in the second list
(String.prototype.includes).  The empty needle is always found. -/
def hasSubChars (needle : List Char) : List Char → Bool
  | [] => startsWithChars needle []
  | b :: bs => startsWithChars needle (b :: bs) || hasSubChars needle bs

/-- Replace the first occurrence of a character
(String.prototype.replace with a plain string pattern). -/
def replaceFirstCh (a b : Char) : List Char → List Char
  | [] => []
  | c :: cs => if c = a then b :: cs else c :: replaceFirstCh a b cs

/-- JavaScript Number applied to a string, in scaled-integer form:
the result is a mantissa and a count of decimal places.  The empty
string is the number 0; otherwise an optional sign followed by digits
with at most one dot, at least one digit in total, and nothing else.
Any other input is NaN, rendered as none. -/
def jsNumScaled (cs : List Char) : Option (ℤ × ℕ) :=
  if cs = [] then some (0, 0)
  else
    let sgn : ℤ := match cs with
      | '-' :: _ => -1
      | _ => 1
    let cs1 : List Char := match cs with
      | '-' :: r => r
      | '+' :: r => r
      | _ => cs
    let intD := cs1.takeWhile isDigitCh
    let rest := cs1.dropWhile isDigitCh
    match rest with
    | [] => if intD = [] then none else some (sgn * (natOfDigits intD : ℤ), 0)
    | '.' :: r =>
      let fracD := r.takeWhile isDigitCh
      let rest2 := r.dropWhile isDigitCh
      if rest2 ≠ [] then none
      else if intD = [] && fracD = [] then none
      else some (sgn * ((natOfDigits intD : ℤ) * (10 : ℤ) ^ fracD.length +
        (natOfDigits fracD : ℤ)), fracD.length)
    | _ => none

/-- Rational value of a scaled-integer number. -/
def scaledToQ (p : ℤ × ℕ) : ℚ := (p.1 : ℚ) / (10 : ℚ) ^ p.2

/-- JavaScript Number applied to a string, as a rational. -/
def jsNumberChars (cs : List Char) : Option ℚ := (jsNumScaled cs).map scaledToQ

/-- The cleaning step of parseToNumber: drop every occurrence of the
characters R and the dollar sign and all whitespace. -/
def cleanChars (cs : List Char) : List Char :=
  cs.filter (fun c => !(c = 'R' || c = '$' || isWsCh c))

/-- Collapse a falsy numeric result to null, the JavaScript idiom used
in the two comma branches of parseToNumber: NaN or 0 becomes null. -/
def orNullQ : Option ℚ → Option ℚ
  | none => none
  | some q => if q = 0 then none else some q

/-- parseToNumber on string content, after the string coercion and trim.
Mirrors src/src/components/OrderForm.jsx lines 816 to 826: clean, then
branch on the separators present; the two comma branches collapse a
falsy result to null, the plain branch only rejects NaN. -/
def parseChars (cs0 : List Char) : Option ℚ :=
  let cs := trimChars cs0
  if cs = [] then none
  else
    let cleaned := cleanChars cs
    if ',' ∈ cleaned && '.' ∈ cleaned then
      orNullQ (jsNumberChars (replaceFirstCh ',' '.' (cleaned.filter (fun c => !(c = '.')))))
    else if ',' ∈ cleaned then
      orNullQ (jsNumberChars (replaceFirstCh ',' '.' cleaned))
    else
      jsNumberChars cleaned

/-- Scaled-integer counterpart of orNullQ: the value of a scaled number
is 0 exactly when its mantissa is 0. -/
def orNullS : Option (ℤ × ℕ) → Option (ℤ × ℕ)
  | none => none
  | some p => if p.1 = 0 then none else some p

/-- Scaled-integer counterpart of parseChars, used to evaluate the
parser on concrete inputs by kernel reduction. -/
def parseScaled (cs0 : List Char) : Option (ℤ × ℕ) :=
  let cs := trimChars cs0
  if cs = [] then none
  else
    let cleaned := cleanChars cs
    if ',' ∈ cleaned && '.' ∈ cleaned then
      orNullS (jsNumScaled (replaceFirstCh ',' '.' (cleaned.filter (fun c => !(c = '.')))))
    else if ',' ∈ cleaned then
      orNullS (jsNumScaled (replaceFirstCh ',' '.' cleaned))
    else
      jsNumScaled cleaned

/-- A JavaScript value, following the tagged shape the specification
recommends: Null (also standing for undefined), Number, String, List
(array) and Map (object, fields in key iteration order). -/
inductive JsVal where
  | vNull : JsVal
  | vNum : ℚ → JsVal
  | vStr : String → JsVal
  | vArr : List JsVal → JsVal
  | vObj : List (String × JsVal) → JsVal

/-- parseToNumber restricted to string input: the empty string is
rejected before any other processing (source line 814). -/
def parseToNumberStr (s : String) : Option ℚ :=
  if s = "" then none else parseChars s.data

/-- parseToNumber (src/src/components/OrderForm.jsx lines 813 to 827):
null, undefined and the empty string give no value, numbers pass
through, strings are cleaned and parsed by locale-aware branching.
Containers give no value (see the modelling note at the top). -/
def parseToNumber : JsVal → Option ℚ
  | .vNull => none
  | .vNum q => some q
  | .vStr s => parseToNumberStr s
  | .vArr _ => none
  | .vObj _ => none

/-- normalizeKey (source lines 834 to 837): keep only ASCII
alphanumerics and lower-case the result.  Returned as a character list
to keep comparisons kernel-computable. -/
def normalizeKey (k : String) : List Char :=
  (k.data.filter isAlnumCh).map lowerCh

/-- Tolerant key comparison of findFieldRecursive (source line 862):
normalized equality, or containment of either normalized form in the
other. -/
def tolerantMatch (kn tn : List Char) : Bool :=
  kn = tn || hasSubChars tn kn || hasSubChars kn tn

/-- Does a record key tolerantly match any of the candidate names
(the inner loop over target norms, source lines 859 to 864). -/
def keyMatchesAny (k : String) (names : List String) : Bool :=
  names.any (fun n => tolerantMatch (normalizeKey k) (normalizeKey n))

/-- The value skip test of findFieldRecursive phase one (source line
857): undefined, null and the empty string are skipped. -/
def skipVal : JsVal → Bool
  | .vNull => true
  | .vStr s => s = ""
  | _ => false

/-- Is a value a container (a JavaScript object, arrays included). -/
def isContainer : JsVal → Bool
  | .vObj _ => true
  | .vArr _ => true
  | _ => false

/-- Result record of findFieldRecursive: matched key, its value and the
key path from the root. -/
structure FieldHit where
  key : String
  value : JsVal
  path : List String

/-- Phase one of findFieldRecursive (source lines 854 to 869): scan the
keys of the current level in iteration order and return the first whose
value is not skipped and whose key tolerantly matches a candidate. -/
def phase1 (names : List String) (path : List String) :
    List (String × JsVal) → Option FieldHit
  | [] => none
  | (k, v) :: rest =>
    if !skipVal v && keyMatchesAny k names then some ⟨k, v, path ++ [k]⟩
    else phase1 names path rest

/-- Object.keys iteration of an array: index strings paired with the
elements. -/
def idxPairs (i : Nat) : List JsVal → List (String × JsVal)
  | [] => []
  | v :: rest => (toString i, v) :: idxPairs (i + 1) rest

mutual
/-- Core of findFieldRecursive (source lines 844 to 885) on tree-shaped
records: phase one checks all keys of the current level, phase two
recurses into container values in key iteration order.  The visited-set
guard of the source never fires on tree-shaped records (every nested
literal is a distinct reference); the companion heap-graph embedding
below models the guard itself. -/
def ffr (v : JsVal) (names : List String) (path : List String) : Option FieldHit :=
  match v with
  | .vObj fields =>
    (match phase1 names path fields with
     | some hit => some hit
     | none => ffrFields fields names path)
  | .vArr es =>
    (match phase1 names path (idxPairs 0 es) with
     | some hit => some hit
     | none => ffrElems es 0 names path)
  | _ => none
termination_by sizeOf v

/-- Phase two of findFieldRecursive over object fields. -/
def ffrFields (fs : List (String × JsVal)) (names : List String) (path : List String) :
    Option FieldHit :=
  match fs with
  | [] => none
  | (k, v) :: rest =>
    if isContainer v then
      match ffr v names (path ++ [k]) with
      | some hit => some hit
      | none => ffrFields rest names path
    else ffrFields rest names path
termination_by sizeOf fs

/-- Phase two of findFieldRecursive over array elements. -/
def ffrElems (es : List JsVal) (i : Nat) (names : List String) (path : List String) :
    Option FieldHit :=
  match es with
  | [] => none
  | v :: rest =>
    if isContainer v then
      match ffr v names (path ++ [toString i]) with
      | some hit => some hit
      | none => ffrElems rest (i + 1) names path
    else ffrElems rest (i + 1) names path
termination_by sizeOf es
end

/-- findFieldRecursive with the state of its visited set at entry
abstracted to one flag: whether the root object itself is already in
the set (the only membership that can hold on tree-shaped records).
When it is, the function returns null at once (source line 846). -/
def findFieldRecursive (rootSeen : Bool) (v : JsVal) (names : List String)
    (path : List String) : Option FieldHit :=
  if rootSeen then none else ffr v names path

/-- The three prioritized tabela field names (source line 905). -/
def tabelaFields : List String := ["Preco_med_prod", "Preco_ens", "Preco_med_out"]

/-- The secondary priority key list of findPriceInObject (source lines
913 to 916), duplicate entry preserved. -/
def priorityKeys : List String :=
  ["Preco_med_prod", "Preco_ens", "Preco_med_out", "Preco_med", "Preco", "preco",
   "preco_med", "preco_ens", "valor", "Valor", "valor_unitario", "price", "Price",
   "valor_unitario"]

/-- ASCII lower-casing of a string, as a character list. -/
def lowerStr (s : String) : List Char := s.data.map lowerCh

/-- Step two of findPriceInObject (source lines 917 to 923): for each
priority key in order, find the first record key equal to it exactly or
case-insensitively; if its value is present, non-empty and parses to a
positive number, that number wins, otherwise try the next priority key. -/
def step2 (ks : List String) (fs : List (String × JsVal)) : Option ℚ :=
  match ks with
  | [] => none
  | k :: rest =>
    match fs.find? (fun kv => kv.1 = k || lowerStr kv.1 = lowerStr k) with
    | some kv =>
      if !skipVal kv.2 then
        match parseToNumber kv.2 with
        | some p => if 0 < p then some p else step2 rest fs
        | none => step2 rest fs
      else step2 rest fs
    | none => step2 rest fs

/-- The regex test of step three: does the key contain preco, valor or
price, case-insensitively. -/
def keyHasPrecoValorPrice (k : String) : Bool :=
  hasSubChars "preco".data (lowerStr k) || hasSubChars "valor".data (lowerStr k) ||
    hasSubChars "price".data (lowerStr k)

/-- Step three of findPriceInObject (source lines 926 to 931): first key
of the current level containing preco, valor or price whose value parses
to a positive number. -/
def step3 (fs : List (String × JsVal)) : Option ℚ :=
  match fs with
  | [] => none
  | (k, v) :: rest =>
    if keyHasPrecoValorPrice k then
      match parseToNumber v with
      | some p => if 0 < p then some p else step3 rest
      | none => step3 rest
    else step3 rest

/-- Step five of findPriceInObject over an array (source lines 942 to
955 reached after step four): every container element was already
visited by step four and is pruned by the visited set, contributing
null; scalar elements are re-parsed exactly as step four parsed them. -/
def fpoElemsPruned : List JsVal → Option ℚ
  | [] => none
  | v :: rest =>
    if isContainer v then fpoElemsPruned rest
    else
      match parseToNumber v with
      | some p => if 0 < p then some p else fpoElemsPruned rest
      | none => fpoElemsPruned rest

mutual
/-- Core of findPriceInObject (source lines 893 to 958) on tree-shaped
records.  Step one invokes findFieldRecursive with the visited set that
already holds the current object (the source adds the object at line 902
and passes the same set at line 906), so that call returns null
unconditionally; the embedding renders this by passing the root-seen
flag as true.  The remaining steps follow the source: priority keys,
name scan, array recursion, then full scan. -/
def fpo (v : JsVal) : Option ℚ :=
  match v with
  | .vNull => none
  | .vNum q => if 0 < q then some q else none
  | .vStr s =>
    (match parseToNumberStr s with
     | some p => if 0 < p then some p else none
     | none => none)
  | .vObj fields =>
    (match findFieldRecursive true (.vObj fields) tabelaFields [] with
     | some hit =>
       (match parseToNumber hit.value with
        | some p => if 0 < p then some p else fpoObjRest fields
        | none => fpoObjRest fields)
     | none => fpoObjRest fields)
  | .vArr es =>
    (match findFieldRecursive true (.vArr es) tabelaFields [] with
     | some hit =>
       (match parseToNumber hit.value with
        | some p => if 0 < p then some p else fpoArrRest es
        | none => fpoArrRest es)
     | none => fpoArrRest es)
termination_by 2 * sizeOf v

/-- Steps two, three and five of findPriceInObject for an object. -/
def fpoObjRest (fields : List (String × JsVal)) : Option ℚ :=
  match step2 priorityKeys fields with
  | some p => some p
  | none =>
    match step3 fields with
    | some p => some p
    | none => fpoFields fields
termination_by 2 * sizeOf fields + 1

/-- Steps two, three, four and five of findPriceInObject for an array. -/
def fpoArrRest (es : List JsVal) : Option ℚ :=
  match step2 priorityKeys (idxPairs 0 es) with
  | some p => some p
  | none =>
    match step3 (idxPairs 0 es) with
    | some p => some p
    | none =>
      match fpoElems es with
      | some p => some p
      | none => fpoElemsPruned es
termination_by 2 * sizeOf es + 1

/-- Step four of findPriceInObject (source lines 934 to 939): recurse
into each array element in order, first positive result wins. -/
def fpoElems (es : List JsVal) : Option ℚ :=
  match es with
  | [] => none
  | v :: rest =>
    match fpo v with
    | some p => some p
    | none => fpoElems rest
termination_by 2 * sizeOf es

/-- Step five of findPriceInObject for an object (source lines 942 to
955): containers recurse, scalars are parsed, first positive wins. -/
def fpoFields (fs : List (String × JsVal)) : Option ℚ :=
  match fs with
  | [] => none
  | (_, v) :: rest =>
    if isContainer v then
      match fpo v with
      | some p => if 0 < p then some p else fpoFields rest
      | none => fpoFields rest
    else
      match parseToNumber v with
      | some p => if 0 < p then some p else fpoFields rest
      | none => fpoFields rest
termination_by 2 * sizeOf fs
end

/-- findPriceInObject as called externally, with a fresh visited set. -/
def findPriceInObject (v : JsVal) : Option ℚ := fpo v

/-- The base-price extraction performed by normalize on each raw catalog
record (source lines 989 to 1004): first the recursive search for the
three tabela fields, parsed; if that is missing or not positive, the
generic findPriceInObject scan; a non-positive tabela parse is kept when
the generic scan also fails. -/
def extractBasePrice (it : JsVal) : Option ℚ :=
  match (findFieldRecursive false it tabelaFields []).bind (fun h => parseToNumber h.value) with
  | some p =>
    if p ≤ 0 then
      match findPriceInObject it with
      | some n => some n
      | none => some p
    else some p
  | none => findPriceInObject it

/-- The fallback minimum price constant (source line 796). -/
def PRECO_MIN_FALLBACK : ℚ := 15

/-- Math.round: round half toward positive infinity, the JavaScript
rounding used by the source. -/
def mathRound (x : ℚ) : ℤ := ⌊x + 1 / 2⌋

/-- calcPrecoMinFromBase (source lines 963 to 968): parse the base, fall
back to the constant when missing or not positive, otherwise multiply by
1.15 and round to cents. -/
def calcPrecoMinFromBase (base : JsVal) : ℚ :=
  match parseToNumber base with
  | none => PRECO_MIN_FALLBACK
  | some b =>
    if b ≤ 0 then PRECO_MIN_FALLBACK
    else (mathRound (b * 1.15 * 100) : ℚ) / 100

/-- Rounding to two decimal places with halves away from zero, as the
specification words it (spec section 4.4). -/
def roundHalfAwayCents (x : ℚ) : ℚ :=
  (if 0 ≤ x then (⌊x * 100 + 1 / 2⌋ : ℚ) else -(⌊-x * 100 + 1 / 2⌋ : ℚ)) / 100

/-- The string rules of the numeric parser as the specification words
them (section 4.1, rules 1, 3 and 4): same cleaning and separator
branching as the source, but the result of a successful parse is
returned as is; no value arises only from the empty input or a parse
yielding not-a-number.  Used to compare the specified parser with the
implemented one. -/
def specParseStr (s : String) : Option ℚ :=
  if s = "" then none
  else
    let cs := trimChars s.data
    if cs = [] then none
    else
      let cleaned := cleanChars cs
      if ',' ∈ cleaned && '.' ∈ cleaned then
        jsNumberChars (replaceFirstCh ',' '.' (cleaned.filter (fun c => !(c = '.'))))
      else if ',' ∈ cleaned then
        jsNumberChars (replaceFirstCh ',' '.' cleaned)
      else
        jsNumberChars cleaned

/-- Object.keys iteration paired with values: object fields in order,
array elements under their index strings, nothing for scalars. -/
def jsKeys : JsVal → List (String × JsVal)
  | .vObj fields => fields
  | .vArr es => idxPairs 0 es
  | _ => []

mutual
/-- Does any key at any depth of the value tolerantly match one of the
candidate names.  This is the search space of findFieldRecursive. -/
def hasMatchV (names : List String) (v : JsVal) : Bool :=
  match v with
  | .vObj fields => hasMatchFields names fields
  | .vArr es => hasMatchElems names 0 es
  | _ => false
termination_by sizeOf v

/-- Key matches within an object field list, at this level or deeper. -/
def hasMatchFields (names : List String) (fs : List (String × JsVal)) : Bool :=
  match fs with
  | [] => false
  | (k, v) :: rest =>
    keyMatchesAny k names || hasMatchV names v || hasMatchFields names rest
termination_by sizeOf fs

/-- Key matches within array elements, index keys included. -/
def hasMatchElems (names : List String) (i : Nat) (es : List JsVal) : Bool :=
  match es with
  | [] => false
  | v :: rest =>
    keyMatchesAny (toString i) names || hasMatchV names v || hasMatchElems names (i + 1) rest
termination_by sizeOf es
end

/-- The product fields consumed when a row is created from a selected
product (source lines 1040 to 1051). -/
structure ProdSel where
  id : String
  nome : String
  peso : JsVal
  codigo : JsVal
  precoMin : Option ℚ

/-- One order line (source row shape): generated id, optional product
reference, denormalized name, cached weight and code, quantity, entered
unit price (raw text, empty meaning not yet priced) and minimum price. -/
structure Row where
  id : String
  produtoId : Option String
  produtoNome : String
  peso : JsVal
  codigo : JsVal
  quantidade : ℚ
  precoUnit : String
  precoMin : ℚ

/-- addRow (source lines 1040 to 1051): append a fresh row; the random
id generation is abstracted to a parameter.  Quantity is the qty
argument, which every call in the source leaves at its default 1. -/
def addRow (rows : List Row) (newId : String) (sel : Option ProdSel) (qty : ℚ) :
    List Row :=
  match sel with
  | some p =>
    rows ++ [⟨newId, some p.id, p.nome, p.peso, p.codigo, qty, "",
      p.precoMin.getD PRECO_MIN_FALLBACK⟩]
  | none =>
    rows ++ [⟨newId, none, "", .vNull, .vNull, qty, "", PRECO_MIN_FALLBACK⟩]

/-- removeRow (source lines 1053 to 1056): drop the row with the id. -/
def removeRow (rows : List Row) (rid : String) : List Row :=
  rows.filter (fun r => !(r.id = rid))

/-- moveRowUp (source lines 1058 to 1065): no-op at index 0, otherwise
swap with the previous row.  The source only invokes it with indices of
the rendered list; out-of-range indices are a no-op here. -/
def moveRowUp (rows : List Row) (i : Nat) : List Row :=
  if i = 0 then rows
  else
    match rows.get? (i - 1), rows.get? i with
    | some a, some b => (rows.set (i - 1) b).set i a
    | _, _ => rows

/-- moveRowDown (source lines 1067 to 1074): no-op on the last row,
otherwise swap with the next row. -/
def moveRowDown (rows : List Row) (i : Nat) : List Row :=
  if rows.length ≤ i + 1 then rows
  else
    match rows.get? i, rows.get? (i + 1) with
    | some a, some b => (rows.set i b).set (i + 1) a
    | _, _ => rows

/-- onQuantidadeChange (source lines 1076 to 1078): store the given
quantity on the row with the id, unchecked. -/
def onQuantidadeChange (rows : List Row) (rid : String) (q : ℚ) : List Row :=
  rows.map (fun r =>
    if r.id = rid then ⟨r.id, r.produtoId, r.produtoNome, r.peso, r.codigo, q,
      r.precoUnit, r.precoMin⟩
    else r)

/-- onPrecoUnitChange (source lines 1080 to 1082): store the entered
price text on the row with the id. -/
def onPrecoUnitChange (rows : List Row) (rid : String) (preco : String) : List Row :=
  rows.map (fun r =>
    if r.id = rid then ⟨r.id, r.produtoId, r.produtoNome, r.peso, r.codigo,
      r.quantidade, preco, r.precoMin⟩
    else r)

/-- The state update of onSelectSuggestion (source lines 1213 to 1220):
write the resolved product fields and the computed minimum price onto
the row; the asynchronous minimum-price resolution that produced
precoMinCalc happens before this update and does not touch quantity. -/
def applySelectSuggestion (rows : List Row) (rid : String) (pid nome : String)
    (peso codigo : JsVal) (precoMinCalc : ℚ) : List Row :=
  rows.map (fun r =>
    if r.id = rid then ⟨r.id, some pid, nome, peso, codigo, r.quantidade,
      r.precoUnit, precoMinCalc⟩
    else r)

/-- Selecting no product (source line 1366): clear the reference and the
name and reset the minimum price to the fallback. -/
def resetProductSelection (rows : List Row) (rid : String) : List Row :=
  rows.map (fun r =>
    if r.id = rid then ⟨r.id, none, "", r.peso, r.codigo, r.quantidade,
      r.precoUnit, PRECO_MIN_FALLBACK⟩
    else r)

/-- JavaScript parseFloat in scaled-integer form: skip leading
whitespace, optional sign, then the longest prefix of digits with one
optional dot; NaN when no digit is found.  Exponent forms are not
modelled and no claim exercises them. -/
def jsParseFloatScaled (s : String) : Option (ℤ × ℕ) :=
  let cs := s.data.dropWhile isWsCh
  let sgn : ℤ := match cs with
    | '-' :: _ => -1
    | _ => 1
  let cs1 : List Char := match cs with
    | '-' :: r => r
    | '+' :: r => r
    | _ => cs
  let intD := cs1.takeWhile isDigitCh
  let rest := cs1.dropWhile isDigitCh
  let fracD : List Char := match rest with
    | '.' :: r => r.takeWhile isDigitCh
    | _ => []
  if intD = [] && fracD = [] then none
  else some (sgn * ((natOfDigits intD : ℤ) * (10 : ℤ) ^ fracD.length +
    (natOfDigits fracD : ℤ)), fracD.length)

/-- JavaScript parseFloat as a rational, none standing for NaN. -/
def jsParseFloat (s : String) : Option ℚ := (jsParseFloatScaled s).map scaledToQ

/-- The value the gate reads from a row: parseFloat of the entered price
text, with the empty text first replaced by the number 0 (the source
idiom at line 1086); none stands for NaN. -/
def rowEntered (r : Row) : Option ℚ :=
  if r.precoUnit = "" then some 0 else jsParseFloat r.precoUnit

/-- The effective minimum the gate compares against (source line 1087):
the stored minimum unless it is falsy, in which case the fallback. -/
def effMin (r : Row) : ℚ :=
  if r.precoMin = 0 then PRECO_MIN_FALLBACK else r.precoMin

/-- Does one row trip the gate (the predicate inside the some-call,
source lines 1085 to 1088): entered value positive and strictly below
the effective minimum; NaN never trips. -/
def rowBlocks (r : Row) : Bool :=
  match rowEntered r with
  | some v => decide (0 < v) && decide (v < effMin r)
  | none => false

/-- priceBelowMinExists (source lines 1084 to 1089): some row trips. -/
def priceBelowMinExists (rows : List Row) : Bool := rows.any rowBlocks

/-- The submission-gate blocking condition as claim C2 words it: some
line has an entered price parsing to a value strictly greater than 0 and
strictly less than that line's stored minimum price. -/
def specGateBlocked (rows : List Row) : Prop :=
  ∃ r ∈ rows, ∃ v, rowEntered r = some v ∧ 0 < v ∧ v < r.precoMin

/-- The quantity invariant of the order line collection
(spec section 3): every line has quantity at least 1. -/
def QtyInv (rows : List Row) : Prop := ∀ r ∈ rows, 1 ≤ r.quantidade

/-- A JavaScript value in the heap-graph embedding: scalars inline,
containers by reference.  This embedding makes reference identity and
cycles expressible, for the visited-set guard of the two recursive
searches. -/
inductive GVal where
  | gNull : GVal
  | gNum : ℚ → GVal
  | gStr : String → GVal
  | gRef : Nat → GVal
deriving DecidableEq

/-- Result record of findFieldRecursive in the heap-graph embedding. -/
structure GHit where
  key : String
  value : GVal
  path : List String
deriving DecidableEq

/-- A heap of container nodes: node n holds the field list nodes[n] (an
array node holds its elements under index-string keys), and arrs marks
which nodes are arrays. -/
structure JsHeap where
  nodes : List (List (String × GVal))
  arrs : List Bool

/-- Number of nodes. -/
def JsHeap.size (h : JsHeap) : Nat := h.nodes.length

/-- Fields of a node. -/
def JsHeap.fields (h : JsHeap) (n : Nat) : List (String × GVal) := h.nodes.getD n []

/-- Is a node an array. -/
def JsHeap.isArr (h : JsHeap) (n : Nat) : Bool := h.arrs.getD n false

/-- All references in a field list stay below the bound. -/
def refsBounded (bound : Nat) (fs : List (String × GVal)) : Bool :=
  fs.all (fun kv =>
    match kv.2 with
    | .gRef m => decide (m < bound)
    | _ => true)

/-- Well-formed heap: every reference points at an existing node. -/
def JsHeap.WFb (h : JsHeap) : Bool := h.nodes.all (refsBounded h.nodes.length)

/-- The value skip test on heap values (undefined, null, empty string). -/
def gSkipVal : GVal → Bool
  | .gNull => true
  | .gStr s => s = ""
  | _ => false

/-- Phase one of findFieldRecursive on a heap field list. -/
def gPhase1 (names path : List String) : List (String × GVal) → Option GHit
  | [] => none
  | (k, v) :: rest =>
    if !gSkipVal v && keyMatchesAny k names then some ⟨k, v, path ++ [k]⟩
    else gPhase1 names path rest

mutual
/-- findFieldRecursive on the heap, fuel-indexed, with the visited set
threaded exactly as the source mutates its shared Set: the result also
carries the visited set as left behind by the search.  A node already
visited is never re-entered (source line 846).  The fuel only bounds
recursion depth; the stabilization theorem shows every fuel beyond the
node count gives the same result, which is the termination content of
the visited-set guard. -/
def findFieldG (h : JsHeap) (names : List String) :
    Nat → Nat → List String → List Nat → Option GHit × List Nat
  | 0, _, _, seen => (none, seen)
  | fuel + 1, n, path, seen =>
    if n ∈ seen then (none, seen)
    else
      match gPhase1 names path (h.fields n) with
      | some hit => (some hit, n :: seen)
      | none => ffgKids h names fuel (h.fields n) path (n :: seen)
termination_by fuel n path seen => (fuel, 0)

/-- Phase two of findFieldRecursive on the heap: recurse into reference
values in key order, threading the visited set. -/
def ffgKids (h : JsHeap) (names : List String) :
    Nat → List (String × GVal) → List String → List Nat → Option GHit × List Nat
  | _, [], _, seen => (none, seen)
  | fuel, (k, v) :: rest, path, seen =>
    match v with
    | .gRef m =>
      (match findFieldG h names fuel m (path ++ [k]) seen with
       | (some hit, s2) => (some hit, s2)
       | (none, s2) => ffgKids h names fuel rest path s2)
    | _ => ffgKids h names fuel rest path seen
termination_by fuel fs path seen => (fuel, fs.length + 1)
end

/-- parseToNumber on heap values; a reference is an object, which
stringifies to non-numeric text, hence no value. -/
def gParse : GVal → Option ℚ
  | .gNull => none
  | .gNum q => some q
  | .gStr s => parseToNumberStr s
  | .gRef _ => none

/-- findPriceInObject applied to a non-reference heap value (the scalar
entry cases of the source, lines 894 to 899). -/
def gScalarPrice : GVal → Option ℚ
  | .gNum q => if 0 < q then some q else none
  | .gStr s =>
    (match parseToNumberStr s with
     | some p => if 0 < p then some p else none
     | none => none)
  | _ => none

/-- Step two of findPriceInObject on a heap field list. -/
def step2G (ks : List String) (fs : List (String × GVal)) : Option ℚ :=
  match ks with
  | [] => none
  | k :: rest =>
    match fs.find? (fun kv => kv.1 = k || lowerStr kv.1 = lowerStr k) with
    | some kv =>
      if !gSkipVal kv.2 then
        match gParse kv.2 with
        | some p => if 0 < p then some p else step2G rest fs
        | none => step2G rest fs
      else step2G rest fs
    | none => step2G rest fs

/-- Step three of findPriceInObject on a heap field list. -/
def step3G (fs : List (String × GVal)) : Option ℚ :=
  match fs with
  | [] => none
  | (k, v) :: rest =>
    if keyHasPrecoValorPrice k then
      match gParse v with
      | some p => if 0 < p then some p else step3G rest
      | none => step3G rest
    else step3G rest

mutual
/-- findPriceInObject on the heap, fuel-indexed, visited set threaded.
Step one passes the visited set that already holds the current node to
findFieldG, exactly as the source does (lines 902 and 906), so that
call returns null at once but is kept in the shape of the source. -/
def findPriceG (h : JsHeap) : Nat → Nat → List Nat → Option ℚ × List Nat
  | 0, _, seen => (none, seen)
  | fuel + 1, n, seen =>
    if n ∈ seen then (none, seen)
    else
      match findFieldG h tabelaFields fuel n [] (n :: seen) with
      | (some hit, s1) =>
        (match gParse hit.value with
         | some p => if 0 < p then (some p, s1) else fpgRest h fuel n s1
         | none => fpgRest h fuel n s1)
      | (none, s1) => fpgRest h fuel n s1
termination_by fuel n seen => (fuel, 0)

/-- Steps two to five of findPriceInObject on a heap node. -/
def fpgRest (h : JsHeap) : Nat → Nat → List Nat → Option ℚ × List Nat
  | fuel, n, seen =>
    match step2G priorityKeys (h.fields n) with
    | some p => (some p, seen)
    | none =>
      match step3G (h.fields n) with
      | some p => (some p, seen)
      | none =>
        if h.isArr n then
          match fpgElems h fuel ((h.fields n).map Prod.snd) seen with
          | (some p, s2) => (some p, s2)
          | (none, s2) => fpgStep5 h fuel (h.fields n) s2
        else fpgStep5 h fuel (h.fields n) seen
termination_by fuel n seen => (fuel, (h.fields n).length + 2)

/-- Step four of findPriceInObject on the heap: recurse into each array
element, first positive wins, visited set threaded. -/
def fpgElems (h : JsHeap) : Nat → List GVal → List Nat → Option ℚ × List Nat
  | _, [], seen => (none, seen)
  | fuel, v :: rest, seen =>
    match v with
    | .gRef m =>
      (match findPriceG h fuel m seen with
       | (some p, s2) => (some p, s2)
       | (none, s2) => fpgElems h fuel rest s2)
    | sc =>
      (match gScalarPrice sc with
       | some p => (some p, seen)
       | none => fpgElems h fuel rest seen)
termination_by fuel es seen => (fuel, es.length + 1)

/-- Step five of findPriceInObject on the heap: references recurse (a
reference already visited is pruned inside the call), scalars are
parsed, first positive wins. -/
def fpgStep5 (h : JsHeap) : Nat → List (String × GVal) → List Nat → Option ℚ × List Nat
  | _, [], seen => (none, seen)
  | fuel, (_, v) :: rest, seen =>
    match v with
    | .gRef m =>
      (match findPriceG h fuel m seen with
       | (some p, s2) => (some p, s2)
       | (none, s2) => fpgStep5 h fuel rest s2)
    | sc =>
      (match gParse sc with
       | some p => if 0 < p then (some p, seen) else fpgStep5 h fuel rest seen
       | none => fpgStep5 h fuel rest seen)
termination_by fuel fs seen => (fuel, fs.length + 1)
end

/-- The nodes of the heap not yet visited. -/
def unvisited (h : JsHeap) (seen : List Nat) : Nat :=
  ((List.range h.size).filter (fun x => !(x ∈ seen))).length

/-- All references in a value list stay below the bound. -/
def refsBoundedV (bound : Nat) (vs : List GVal) : Bool :=
  vs.all (fun v =>
    match v with
    | .gRef m => decide (m < bound)
    | _ => true)


/-! Helper lemmas. -/

theorem scaledToQ_eq_zero_iff (p : ℤ × ℕ) : scaledToQ p = 0 ↔ p.1 = 0 := by
  unfold scaledToQ
  rw [div_eq_zero_iff]
  constructor
  · rintro (h | h)
    · exact_mod_cast h
    · exact absurd h (by positivity)
  · intro h
    left
    exact_mod_cast h

theorem orNullQ_map (o : Option (ℤ × ℕ)) :
    orNullQ (o.map scaledToQ) = (orNullS o).map scaledToQ := by
  cases o with
  | none => rfl
  | some p =>
    show orNullQ (some (scaledToQ p)) = (orNullS (some p)).map scaledToQ
    by_cases h : p.1 = 0
    · have hq : scaledToQ p = 0 := (scaledToQ_eq_zero_iff p).mpr h
      simp [orNullQ, orNullS, h, hq]
    · have hq : ¬scaledToQ p = 0 := fun hq => h ((scaledToQ_eq_zero_iff p).mp hq)
      simp [orNullQ, orNullS, h, hq]

/-- The rational parser is the scaled parser followed by evaluation. -/
theorem parseChars_eq_scaled (cs0 : List Char) :
    parseChars cs0 = (parseScaled cs0).map scaledToQ := by
  unfold parseChars parseScaled
  by_cases h0 : trimChars cs0 = []
  · simp [h0]
  · by_cases hc : ',' ∈ cleanChars (trimChars cs0) <;>
      by_cases hd : '.' ∈ cleanChars (trimChars cs0) <;>
      simp [h0, hc, hd, orNullQ_map, jsNumberChars]


theorem parse_some_not_skip {v : JsVal} {q : ℚ} (h : parseToNumber v = some q) :
    skipVal v = false := by
  cases v with
  | vNull => simp [parseToNumber] at h
  | vNum q2 => rfl
  | vStr s =>
    simp only [skipVal]
    by_cases hs : s = ""
    · rw [parseToNumber, parseToNumberStr, if_pos hs] at h
      exact absurd h (by simp)
    · simp [hs]
  | vArr es => simp [parseToNumber] at h
  | vObj fs => simp [parseToNumber] at h

theorem parse_some_not_container {v : JsVal} {q : ℚ} (h : parseToNumber v = some q) :
    isContainer v = false := by
  cases v <;> simp_all [parseToNumber, isContainer]

theorem parseToNumber_vStr (s : String) :
    parseToNumber (.vStr s) = parseToNumberStr s := rfl

/-! Claim theorems: minimum-price deriver. -/

/-- C3: deriveMinimum (calcPrecoMinFromBase) returns the fallback
constant 15.0 for every absent or non-positive base price, and for every
strictly positive base price b returns b times 1.15 rounded to 2 decimal
places with round-half-away-from-zero at the cent boundary. -/
theorem claim_C3 :
    PRECO_MIN_FALLBACK = 15 ∧
    (∀ v : JsVal, parseToNumber v = none → calcPrecoMinFromBase v = PRECO_MIN_FALLBACK) ∧
    (∀ (v : JsVal) (b : ℚ), parseToNumber v = some b → b ≤ 0 →
      calcPrecoMinFromBase v = PRECO_MIN_FALLBACK) ∧
    (∀ (v : JsVal) (b : ℚ), parseToNumber v = some b → 0 < b →
      calcPrecoMinFromBase v = roundHalfAwayCents (b * 1.15)) := by
  refine ⟨rfl, ?_, ?_, ?_⟩
  · intro v h
    simp [calcPrecoMinFromBase, h]
  · intro v b h hb
    simp only [calcPrecoMinFromBase, h]
    rw [if_pos hb]
  · intro v b h hb
    have hnle : ¬b ≤ 0 := not_le.mpr hb
    have hx : (0 : ℚ) ≤ b * 1.15 := by nlinarith
    simp only [calcPrecoMinFromBase, h, roundHalfAwayCents, mathRound, if_neg hnle, if_pos hx]

theorem claim_C3_witness :
    parseToNumber (.vNum 100) = some 100 ∧ (0 : ℚ) < 100 ∧
    calcPrecoMinFromBase (.vNum 100) = roundHalfAwayCents (100 * 1.15) :=
  ⟨rfl, by norm_num, claim_C3.2.2.2 (.vNum 100) 100 rfl (by norm_num)⟩

theorem claim_C4_counterexample :
    (0 : ℚ) ≤ 1 ∧
    calcPrecoMinFromBase (.vNum 0) = PRECO_MIN_FALLBACK ∧
    calcPrecoMinFromBase (.vNum 1) = 1.15 ∧
    ¬calcPrecoMinFromBase (.vNum 0) ≤ calcPrecoMinFromBase (.vNum 1) := by
  have h0 : calcPrecoMinFromBase (.vNum 0) = PRECO_MIN_FALLBACK := by
    norm_num [calcPrecoMinFromBase, parseToNumber]
  have h1 : calcPrecoMinFromBase (.vNum 1) = 1.15 := by
    norm_num [calcPrecoMinFromBase, parseToNumber, mathRound]
  refine ⟨by norm_num, h0, h1, ?_⟩
  rw [h0, h1]
  norm_num [PRECO_MIN_FALLBACK]

/-- C4 amended: deriveMinimum is monotone on strictly positive base
prices and constant (the fallback) on absent or non-positive ones, but
not monotone across the boundary between the two regions; and
deriveMinimum(100) is 115.00. -/
theorem claim_C4 :
    (∀ b1 b2 : ℚ, 0 < b1 → b1 ≤ b2 →
      calcPrecoMinFromBase (.vNum b1) ≤ calcPrecoMinFromBase (.vNum b2)) ∧
    (∀ v : JsVal, parseToNumber v = none → calcPrecoMinFromBase v = PRECO_MIN_FALLBACK) ∧
    (∀ b : ℚ, b ≤ 0 → calcPrecoMinFromBase (.vNum b) = PRECO_MIN_FALLBACK) ∧
    calcPrecoMinFromBase (.vNum 100) = 115 := by
  refine ⟨?_, claim_C3.2.1, ?_, ?_⟩
  · intro b1 b2 h1 h12
    have h2 : 0 < b2 := lt_of_lt_of_le h1 h12
    simp only [calcPrecoMinFromBase, parseToNumber, if_neg (not_le.mpr h1),
      if_neg (not_le.mpr h2), mathRound]
    have hf : (⌊b1 * 1.15 * 100 + 1 / 2⌋ : ℤ) ≤ ⌊b2 * 1.15 * 100 + 1 / 2⌋ :=
      Int.floor_mono (by nlinarith)
    have hq : ((⌊b1 * 1.15 * 100 + 1 / 2⌋ : ℤ) : ℚ) ≤ ((⌊b2 * 1.15 * 100 + 1 / 2⌋ : ℤ) : ℚ) := by
      exact_mod_cast hf
    linarith
  · intro b hb
    simp only [calcPrecoMinFromBase, parseToNumber]
    rw [if_pos hb]
  · norm_num [calcPrecoMinFromBase, parseToNumber, mathRound]

theorem claim_C4_witness :
    (0 : ℚ) < 1 ∧ (1 : ℚ) ≤ 2 ∧
    calcPrecoMinFromBase (.vNum 1) ≤ calcPrecoMinFromBase (.vNum 2) :=
  ⟨by norm_num, by norm_num, claim_C4.1 1 2 (by norm_num) (by norm_num)⟩

/-! Claim theorems: numeric parser. -/

/-- C5: the numeric parser satisfies the required examples, and it is a
total function of its tagged input (absent, empty string, number or
string), so it never throws. -/
theorem claim_C5 :
    parseToNumber (.vStr "R$ 1.234,56") = some 1234.56 ∧
    parseToNumber (.vStr "19,9") = some 19.9 ∧
    parseToNumber (.vStr "19.9") = some 19.9 ∧
    parseToNumber (.vStr "19.90") = some 19.9 ∧
    parseToNumber (.vStr "") = none ∧
    parseToNumber .vNull = none ∧
    (∀ q : ℚ, parseToNumber (.vNum q) = some q) := by
  refine ⟨?_, ?_, ?_, ?_, rfl, rfl, fun q => rfl⟩
  · rw [parseToNumber_vStr, parseToNumberStr, if_neg (by decide), parseChars_eq_scaled,
      show parseScaled "R$ 1.234,56".data = some (123456, 2) from by decide]
    norm_num [scaledToQ]
  · rw [parseToNumber_vStr, parseToNumberStr, if_neg (by decide), parseChars_eq_scaled,
      show parseScaled "19,9".data = some (199, 1) from by decide]
    norm_num [scaledToQ]
  · rw [parseToNumber_vStr, parseToNumberStr, if_neg (by decide), parseChars_eq_scaled,
      show parseScaled "19.9".data = some (199, 1) from by decide]
    norm_num [scaledToQ]
  · rw [parseToNumber_vStr, parseToNumberStr, if_neg (by decide), parseChars_eq_scaled,
      show parseScaled "19.90".data = some (1990, 2) from by decide]
    norm_num [scaledToQ]

/-- The implemented string parser agrees with the specified one up to
the comma-branch null-collapse: in the comma branches the result passes
through the falsy collapse, elsewhere it is returned as is. -/
theorem parseStr_eq_spec (s : String) :
    parseToNumberStr s =
      if ',' ∈ cleanChars (trimChars s.data) then orNullQ (specParseStr s)
      else specParseStr s := by
  unfold parseToNumberStr specParseStr parseChars
  by_cases he : s = ""
  · subst he
    have hd : trimChars ("" : String).data = [] := by decide
    simp [hd, cleanChars]
  · simp only [if_neg he]
    by_cases h0 : trimChars s.data = []
    · simp [h0, cleanChars]
    · simp only [if_neg h0]
      by_cases hc : ',' ∈ cleanChars (trimChars s.data) <;>
        by_cases hd : '.' ∈ cleanChars (trimChars s.data) <;>
        simp [hc, hd]

theorem claim_C6_counterexample :
    specParseStr "0,00" = some 0 ∧ parseToNumber (.vStr "0,00") = none := by
  constructor
  · have h1 : ¬("0,00" : String) = "" := by decide
    have h2 : ¬trimChars ("0,00" : String).data = [] := by decide
    have h3 : ',' ∈ cleanChars (trimChars ("0,00" : String).data) := by decide
    have h4 : ¬('.' ∈ cleanChars (trimChars ("0,00" : String).data)) := by decide
    have h5 : jsNumScaled (replaceFirstCh ',' '.'
        (cleanChars (trimChars ("0,00" : String).data))) = some (0, 2) := by decide
    simp [specParseStr, h1, h2, h3, h4, jsNumberChars, h5, scaledToQ]
  · rw [parseToNumber_vStr, parseToNumberStr, if_neg (by decide), parseChars_eq_scaled,
      show parseScaled "0,00".data = none from by decide]
    rfl

/-- C6 amended: the parser returns the number the section 4.1 rules
yield whenever that number is nonzero or no comma is present, and no
value whenever the rules yield not-a-number; but in the comma branches a
parse result of 0 is collapsed to no value, so the zero-denoting comma
strings return no value rather than 0. -/
theorem claim_C6 :
    (∀ (s : String) (q : ℚ), specParseStr s = some q → q ≠ 0 →
      parseToNumber (.vStr s) = some q) ∧
    (∀ s : String, specParseStr s = none → parseToNumber (.vStr s) = none) ∧
    (∀ (s : String) (q : ℚ), specParseStr s = some q →
      ',' ∉ cleanChars (trimChars s.data) → parseToNumber (.vStr s) = some q) ∧
    parseToNumber (.vStr "0,00") = none ∧
    parseToNumber (.vStr "0,0") = none := by
  refine ⟨?_, ?_, ?_, ?_, ?_⟩
  · intro s q h hq
    rw [parseToNumber_vStr, parseStr_eq_spec]
    by_cases hc : ',' ∈ cleanChars (trimChars s.data)
    · rw [if_pos hc, h]
      simp [orNullQ, hq]
    · rw [if_neg hc, h]
  · intro s h
    rw [parseToNumber_vStr, parseStr_eq_spec]
    by_cases hc : ',' ∈ cleanChars (trimChars s.data) <;> simp [hc, h, orNullQ]
  · intro s q h hc
    rw [parseToNumber_vStr, parseStr_eq_spec, if_neg hc, h]
  · rw [parseToNumber_vStr, parseToNumberStr, if_neg (by decide), parseChars_eq_scaled,
      show parseScaled "0,00".data = none from by decide]
    rfl
  · rw [parseToNumber_vStr, parseToNumberStr, if_neg (by decide), parseChars_eq_scaled,
      show parseScaled "0,0".data = none from by decide]
    rfl

theorem claim_C6_witness :
    specParseStr "19,9" = some 19.9 ∧ (19.9 : ℚ) ≠ 0 ∧
    parseToNumber (.vStr "19,9") = some 19.9 := by
  have hs : specParseStr "19,9" = some 19.9 := by
    have h1 : ¬("19,9" : String) = "" := by decide
    have h2 : ¬trimChars ("19,9" : String).data = [] := by decide
    have h3 : ',' ∈ cleanChars (trimChars ("19,9" : String).data) := by decide
    have h4 : ¬('.' ∈ cleanChars (trimChars ("19,9" : String).data)) := by decide
    have h5 : jsNumScaled (replaceFirstCh ',' '.'
        (cleanChars (trimChars ("19,9" : String).data))) = some (199, 1) := by decide
    simp [specParseStr, h1, h2, h3, h4, jsNumberChars, h5, scaledToQ]
    norm_num
  exact ⟨hs, by norm_num, claim_C6.1 "19,9" 19.9 hs (by norm_num)⟩

/-! Claim theorems: price extractor. -/

/-- C1: the base-price extractor gives the tabela field found at any
depth priority over the generic valor field: with a value parsing to 80
under Preco_med_prod and a value parsing to 999 under valor, the
extracted base price is 80 in either key order, both with the tabela
field at top level and with it inside a nested sub-object. -/
theorem claim_C1 (v1 v2 : JsVal) (h1 : parseToNumber v1 = some 80)
    (h2 : parseToNumber v2 = some 999) :
    extractBasePrice (.vObj [("Preco_med_prod", v1), ("valor", v2)]) = some 80 ∧
    extractBasePrice (.vObj [("valor", v2), ("Preco_med_prod", v1)]) = some 80 ∧
    extractBasePrice (.vObj [("sub", .vObj [("Preco_med_prod", v1)]), ("valor", v2)]) = some 80 ∧
    extractBasePrice (.vObj [("valor", v2), ("sub", .vObj [("Preco_med_prod", v1)])]) = some 80 := by
  have hm : keyMatchesAny "Preco_med_prod" tabelaFields = true := by decide
  have hv : keyMatchesAny "valor" tabelaFields = false := by decide
  have hs : keyMatchesAny "sub" tabelaFields = false := by decide
  have hsk1 : skipVal v1 = false := parse_some_not_skip h1
  have hc2 : isContainer v2 = false := parse_some_not_container h2
  have h80 : ¬(80 : ℚ) ≤ 0 := by norm_num
  have hskObj : ∀ l, skipVal (JsVal.vObj l) = false := fun _ => rfl
  have hcObj : ∀ l, isContainer (JsVal.vObj l) = true := fun _ => rfl
  refine ⟨?_, ?_, ?_, ?_⟩ <;>
    simp [extractBasePrice, findFieldRecursive, ffr, ffrFields, phase1,
      hm, hv, hs, hsk1, hc2, hskObj, hcObj, h1, h2, h80]

theorem claim_C1_witness :
    parseToNumber (.vStr "80") = some 80 ∧
    parseToNumber (.vStr "999") = some 999 ∧
    extractBasePrice (.vObj [("Preco_med_prod", .vStr "80"), ("valor", .vStr "999")]) =
      some 80 := by
  have h80 : parseToNumber (.vStr "80") = some 80 := by
    rw [parseToNumber_vStr, parseToNumberStr, if_neg (by decide), parseChars_eq_scaled,
      show parseScaled "80".data = some (80, 0) from by decide]
    norm_num [scaledToQ]
  have h999 : parseToNumber (.vStr "999") = some 999 := by
    rw [parseToNumber_vStr, parseToNumberStr, if_neg (by decide), parseChars_eq_scaled,
      show parseScaled "999".data = some (999, 0) from by decide]
    norm_num [scaledToQ]
  exact ⟨h80, h999, (claim_C1 _ _ h80 h999).1⟩

/-! Claim theorems: field locator. -/

theorem phase1_path {names path : List String} {fs : List (String × JsVal)}
    {hit : FieldHit} (h : phase1 names path fs = some hit) :
    hit.path = path ++ [hit.key] := by
  induction fs with
  | nil => simp [phase1] at h
  | cons kv rest ih =>
    obtain ⟨k, v⟩ := kv
    rw [phase1] at h
    split at h
    · cases h
      rfl
    · exact ih h

theorem phase1_none_fields (names path : List String) (fs : List (String × JsVal))
    (h : hasMatchFields names fs = false) : phase1 names path fs = none := by
  induction fs with
  | nil => rfl
  | cons kv rest ih =>
    obtain ⟨k, v⟩ := kv
    simp only [hasMatchFields, Bool.or_eq_false_iff] at h
    obtain ⟨⟨hk, _⟩, hrest⟩ := h
    simp [phase1, hk, ih hrest]

theorem phase1_none_elems (names path : List String) (es : List JsVal) :
    ∀ i : Nat, hasMatchElems names i es = false →
      phase1 names path (idxPairs i es) = none := by
  induction es with
  | nil => intro i _; rfl
  | cons v rest ih =>
    intro i h
    simp only [hasMatchElems, Bool.or_eq_false_iff] at h
    obtain ⟨⟨hk, _⟩, hrest⟩ := h
    simp [idxPairs, phase1, hk, ih (i + 1) hrest]

mutual
theorem noMatch_ffr (names : List String) (v : JsVal)
    (h : hasMatchV names v = false) (path : List String) :
    ffr v names path = none := by
  cases v with
  | vObj fields =>
    simp only [hasMatchV] at h
    rw [ffr]
    simp only [phase1_none_fields names path fields h]
    exact noMatch_fields names fields h path
  | vArr es =>
    simp only [hasMatchV] at h
    rw [ffr]
    simp only [phase1_none_elems names path es 0 h]
    exact noMatch_elems names es 0 h path
  | vNull => simp [ffr]
  | vNum q => simp [ffr]
  | vStr s => simp [ffr]
termination_by sizeOf v

theorem noMatch_fields (names : List String) (fs : List (String × JsVal))
    (h : hasMatchFields names fs = false) (path : List String) :
    ffrFields fs names path = none := by
  match fs with
  | [] => simp [ffrFields]
  | (k, v) :: rest =>
    simp only [hasMatchFields, Bool.or_eq_false_iff] at h
    obtain ⟨⟨_, hv⟩, hrest⟩ := h
    rw [ffrFields]
    by_cases hcont : isContainer v = true
    · simp only [hcont, if_true, noMatch_ffr names v hv (path ++ [k])]
      exact noMatch_fields names rest hrest path
    · simp only [Bool.not_eq_true] at hcont
      simp only [hcont, Bool.false_eq_true, if_false]
      exact noMatch_fields names rest hrest path
termination_by sizeOf fs

theorem noMatch_elems (names : List String) (es : List JsVal) (i : Nat)
    (h : hasMatchElems names i es = false) (path : List String) :
    ffrElems es i names path = none := by
  match es with
  | [] => simp [ffrElems]
  | v :: rest =>
    simp only [hasMatchElems, Bool.or_eq_false_iff] at h
    obtain ⟨⟨_, hv⟩, hrest⟩ := h
    rw [ffrElems]
    by_cases hcont : isContainer v = true
    · simp only [hcont, if_true, noMatch_ffr names v hv (path ++ [toString i])]
      exact noMatch_elems names rest (i + 1) hrest path
    · simp only [Bool.not_eq_true] at hcont
      simp only [hcont, Bool.false_eq_true, if_false]
      exact noMatch_elems names rest (i + 1) hrest path
termination_by sizeOf es
end

/-- C7: the field locator checks all keys of the current level before
recursing (a phase-one match is the result, with a one-step path
extension, for every candidate list); on the nested example record it
returns the value under path a.b.Preco_ens; and on every record with no
tolerantly matching key at any depth it returns not-found. -/
theorem claim_C7 :
    findFieldRecursive false
      (.vObj [("a", .vObj [("b", .vObj [("Preco_ens", .vStr "50,00")])])])
      ["Preco_ens"] [] =
      some ⟨"Preco_ens", .vStr "50,00", ["a", "b", "Preco_ens"]⟩ ∧
    String.intercalate "." ["a", "b", "Preco_ens"] = "a.b.Preco_ens" ∧
    (∀ (v : JsVal) (names : List String), hasMatchV names v = false →
      findFieldRecursive false v names [] = none) ∧
    (∀ (v : JsVal) (names path : List String) (hit : FieldHit),
      phase1 names path (jsKeys v) = some hit →
      findFieldRecursive false v names path = some hit ∧ hit.path = path ++ [hit.key]) := by
  refine ⟨?_, by rfl, ?_, ?_⟩
  · have ha : keyMatchesAny "a" ["Preco_ens"] = false := by decide
    have hb : keyMatchesAny "b" ["Preco_ens"] = false := by decide
    have hp : keyMatchesAny "Preco_ens" ["Preco_ens"] = true := by decide
    simp [findFieldRecursive, ffr, ffrFields, phase1, ha, hb, hp, skipVal, isContainer]
  · intro v names h
    simp only [findFieldRecursive, if_false, Bool.false_eq_true]
    exact noMatch_ffr names v h []
  · intro v names path hit h
    refine ⟨?_, phase1_path h⟩
    simp only [findFieldRecursive, if_false, Bool.false_eq_true]
    cases v with
    | vObj fields =>
      rw [ffr]
      simp only [jsKeys] at h
      rw [h]
    | vArr es =>
      rw [ffr]
      simp only [jsKeys] at h
      rw [h]
    | vNull => simp [jsKeys, phase1] at h
    | vNum q => simp [jsKeys, phase1] at h
    | vStr s => simp [jsKeys, phase1] at h

theorem claim_C7_witness :
    hasMatchV ["Preco_ens"] (.vObj [("x", .vNull)]) = false ∧
    findFieldRecursive false (.vObj [("x", .vNull)]) ["Preco_ens"] [] = none ∧
    phase1 ["Preco_ens"] [] (jsKeys (.vObj [("Preco_ens", .vStr "50,00")])) =
      some ⟨"Preco_ens", .vStr "50,00", ["Preco_ens"]⟩ ∧
    findFieldRecursive false (.vObj [("Preco_ens", .vStr "50,00")]) ["Preco_ens"] [] =
      some ⟨"Preco_ens", .vStr "50,00", ["Preco_ens"]⟩ := by
  have hm : hasMatchV ["Preco_ens"] (.vObj [("x", .vNull)]) = false := by
    simp [hasMatchV, hasMatchFields,
      show keyMatchesAny "x" ["Preco_ens"] = false from by decide]
  have hp : phase1 ["Preco_ens"] [] (jsKeys (.vObj [("Preco_ens", .vStr "50,00")])) =
      some ⟨"Preco_ens", .vStr "50,00", ["Preco_ens"]⟩ := rfl
  exact ⟨hm, claim_C7.2.2.1 _ _ hm, hp, (claim_C7.2.2.2 _ _ [] _ hp).1⟩

/-! Claim theorems: submission gate and order line collection. -/

theorem rowBlocks_iff (r : Row) :
    rowBlocks r = true ↔ ∃ v, rowEntered r = some v ∧ 0 < v ∧ v < effMin r := by
  rcases h : rowEntered r with _ | v <;> simp [rowBlocks, h]

theorem rowBlocks_of_empty (r : Row) (h : r.precoUnit = "") : rowBlocks r = false := by
  have hv : rowEntered r = some 0 := by rw [rowEntered, if_pos h]
  simp only [rowBlocks, hv]
  rw [decide_eq_false (by norm_num : ¬(0 : ℚ) < 0)]
  simp

theorem claim_C2_counterexample :
    priceBelowMinExists [⟨"r1", none, "p", .vNull, .vNull, 1, "10", 0⟩] = true ∧
    ¬specGateBlocked [⟨"r1", none, "p", .vNull, .vNull, 1, "10", 0⟩] := by
  have hv : rowEntered ⟨"r1", none, "p", .vNull, .vNull, 1, "10", 0⟩ = some 10 := by
    rw [rowEntered, if_neg (by decide), jsParseFloat,
      show jsParseFloatScaled "10" = some (10, 0) from by decide]
    norm_num [scaledToQ]
  constructor
  · have hb : rowBlocks ⟨"r1", none, "p", .vNull, .vNull, 1, "10", 0⟩ = true :=
      (rowBlocks_iff _).mpr ⟨10, hv, by norm_num, by norm_num [effMin, PRECO_MIN_FALLBACK]⟩
    simp [priceBelowMinExists, hb]
  · rintro ⟨r, hr, v, hv2, hpos, hlt⟩
    simp only [List.mem_singleton] at hr
    subst hr
    rw [hv] at hv2
    cases hv2
    norm_num at hlt

/-- C2 amended: the gate is blocked exactly when some line's entered
price parses (longest numeric prefix, empty meaning unpriced) to a value
strictly greater than 0 and strictly less than that line's effective
minimum, where the effective minimum is the stored minimum unless that
is 0, in which case the fallback 15.0; in particular the 10-versus-15
draft is blocked, the 20-versus-15 draft is valid, and a line with empty
entered price never blocks, whatever its stored minimum. -/
theorem claim_C2 :
    (∀ rows : List Row, priceBelowMinExists rows = true ↔
      ∃ r ∈ rows, ∃ v, rowEntered r = some v ∧ 0 < v ∧ v < effMin r) ∧
    (∀ r : Row, r.precoUnit = "10" → r.precoMin = 15 → priceBelowMinExists [r] = true) ∧
    (∀ r : Row, r.precoUnit = "20" → r.precoMin = 15 → priceBelowMinExists [r] = false) ∧
    (∀ r : Row, r.precoUnit = "" → rowBlocks r = false) ∧
    (∀ rows : List Row, (∀ r ∈ rows, r.precoUnit = "") →
      priceBelowMinExists rows = false) := by
  refine ⟨?_, ?_, ?_, rowBlocks_of_empty, ?_⟩
  · intro rows
    simp [priceBelowMinExists, List.any_eq_true, rowBlocks_iff]
  · intro r h1 h2
    have hv : rowEntered r = some 10 := by
      rw [rowEntered, h1, if_neg (by decide), jsParseFloat,
        show jsParseFloatScaled "10" = some (10, 0) from by decide]
      norm_num [scaledToQ]
    have hmin : effMin r = 15 := by
      rw [effMin, h2, if_neg (by norm_num)]
    have hb : rowBlocks r = true :=
      (rowBlocks_iff r).mpr ⟨10, hv, by norm_num, by rw [hmin]; norm_num⟩
    simp [priceBelowMinExists, hb]
  · intro r h1 h2
    have hv : rowEntered r = some 20 := by
      rw [rowEntered, h1, if_neg (by decide), jsParseFloat,
        show jsParseFloatScaled "20" = some (20, 0) from by decide]
      norm_num [scaledToQ]
    have hmin : effMin r = 15 := by
      rw [effMin, h2, if_neg (by norm_num)]
    have hb : rowBlocks r = false := by
      simp only [rowBlocks, hv, hmin]
      rw [decide_eq_false (by norm_num : ¬(20 : ℚ) < 15)]
      simp
    simp [priceBelowMinExists, hb]
  · intro rows h
    simp only [priceBelowMinExists, List.any_eq_false]
    intro r hr
    simp [rowBlocks_of_empty r (h r hr)]

theorem claim_C2_witness :
    priceBelowMinExists [⟨"r1", none, "p", .vNull, .vNull, 1, "10", 15⟩] = true ∧
    priceBelowMinExists [⟨"r1", none, "p", .vNull, .vNull, 1, "20", 15⟩] = false ∧
    rowBlocks ⟨"r1", none, "p", .vNull, .vNull, 1, "", 100⟩ = false :=
  ⟨claim_C2.2.1 _ rfl rfl, claim_C2.2.2.1 _ rfl rfl, claim_C2.2.2.2.1 _ rfl⟩

/-- C10: when a line's stored minimum price is 0 the gate substitutes
the fallback 15.0 as the effective minimum, so a row with stored minimum
0 whose entered price parses to a value strictly between 0 and 15 blocks
the gate. -/
theorem claim_C10 :
    ∀ (rows : List Row) (r : Row), r ∈ rows → r.precoMin = 0 →
      ∀ v : ℚ, rowEntered r = some v → 0 < v → v < 15 →
        priceBelowMinExists rows = true := by
  intro rows r hr hmin v hv hpos hlt
  have hemin : effMin r = 15 := by rw [effMin, if_pos hmin]; rfl
  have hb : rowBlocks r = true :=
    (rowBlocks_iff r).mpr ⟨v, hv, hpos, by rw [hemin]; exact hlt⟩
  simp only [priceBelowMinExists, List.any_eq_true]
  exact ⟨r, hr, hb⟩

theorem claim_C10_witness :
    rowEntered ⟨"r2", none, "p", .vNull, .vNull, 1, "10", 0⟩ = some 10 ∧
    priceBelowMinExists [⟨"r2", none, "p", .vNull, .vNull, 1, "10", 0⟩] = true := by
  have hv : rowEntered ⟨"r2", none, "p", .vNull, .vNull, 1, "10", 0⟩ = some 10 := by
    rw [rowEntered, if_neg (by decide), jsParseFloat,
      show jsParseFloatScaled "10" = some (10, 0) from by decide]
    norm_num [scaledToQ]
  exact ⟨hv, claim_C10 _ _ (by simp) rfl 10 hv (by norm_num) (by norm_num)⟩

theorem moveRowUp_mem {rows : List Row} {i : Nat} {r : Row}
    (hr : r ∈ moveRowUp rows i) : r ∈ rows := by
  rw [moveRowUp] at hr
  by_cases hi : i = 0
  · rw [if_pos hi] at hr
    exact hr
  · rw [if_neg hi] at hr
    rcases ha : rows.get? (i - 1) with _ | a <;> rcases hb : rows.get? i with _ | b <;>
      simp only [ha, hb] at hr
    · exact hr
    · exact hr
    · exact hr
    · rcases List.mem_or_eq_of_mem_set hr with h2 | h2
      · rcases List.mem_or_eq_of_mem_set h2 with h3 | h3
        · exact h3
        · subst h3
          exact List.get?_mem hb
      · subst h2
        exact List.get?_mem ha

theorem moveRowDown_mem {rows : List Row} {i : Nat} {r : Row}
    (hr : r ∈ moveRowDown rows i) : r ∈ rows := by
  rw [moveRowDown] at hr
  by_cases hi : rows.length ≤ i + 1
  · rw [if_pos hi] at hr
    exact hr
  · rw [if_neg hi] at hr
    rcases ha : rows.get? i with _ | a <;> rcases hb : rows.get? (i + 1) with _ | b <;>
      simp only [ha, hb] at hr
    · exact hr
    · exact hr
    · exact hr
    · rcases List.mem_or_eq_of_mem_set hr with h2 | h2
      · rcases List.mem_or_eq_of_mem_set h2 with h3 | h3
        · exact h3
        · subst h3
          exact List.get?_mem hb
      · subst h2
        exact List.get?_mem ha

theorem claim_C9_counterexample :
    QtyInv [⟨"r1", none, "", .vNull, .vNull, 1, "", 15⟩] ∧
    ¬QtyInv (onQuantidadeChange [⟨"r1", none, "", .vNull, .vNull, 1, "", 15⟩] "r1" 0) := by
  constructor
  · intro r hr
    simp only [List.mem_singleton] at hr
    subst hr
    norm_num
  · intro h
    have := h ⟨"r1", none, "", .vNull, .vNull, 0, "", 15⟩ (by simp [onQuantidadeChange])
    norm_num at this

/-- C9 amended: every collection operation except the quantity update
preserves the invariant that each line has quantity at least 1, and a
line is created with quantity defaulting to 1; the quantity update
stores its argument unchecked, so it preserves the invariant exactly
when the new quantity is at least 1 (the call site maps empty input to
1 but passes 0 or negative input through). -/
theorem claim_C9 :
    (∀ (rows : List Row) (newId : String) (sel : Option ProdSel),
      QtyInv rows → QtyInv (addRow rows newId sel 1)) ∧
    (∀ (rows : List Row) (newId : String) (sel : Option ProdSel) (qty : ℚ),
      QtyInv rows → 1 ≤ qty → QtyInv (addRow rows newId sel qty)) ∧
    (∀ (rows : List Row) (rid : String), QtyInv rows → QtyInv (removeRow rows rid)) ∧
    (∀ (rows : List Row) (i : Nat), QtyInv rows → QtyInv (moveRowUp rows i)) ∧
    (∀ (rows : List Row) (i : Nat), QtyInv rows → QtyInv (moveRowDown rows i)) ∧
    (∀ (rows : List Row) (rid preco : String),
      QtyInv rows → QtyInv (onPrecoUnitChange rows rid preco)) ∧
    (∀ (rows : List Row) (rid pid nome : String) (peso codigo : JsVal) (pm : ℚ),
      QtyInv rows → QtyInv (applySelectSuggestion rows rid pid nome peso codigo pm)) ∧
    (∀ (rows : List Row) (rid : String),
      QtyInv rows → QtyInv (resetProductSelection rows rid)) ∧
    (∀ (rows : List Row) (rid : String) (q : ℚ),
      QtyInv rows → 1 ≤ q → QtyInv (onQuantidadeChange rows rid q)) := by
  have haddq : ∀ (rows : List Row) (newId : String) (sel : Option ProdSel) (qty : ℚ),
      QtyInv rows → 1 ≤ qty → QtyInv (addRow rows newId sel qty) := by
    intro rows newId sel qty hinv hq r hr
    cases sel <;> simp only [addRow, List.mem_append, List.mem_singleton] at hr <;>
      rcases hr with hr | hr
    · exact hinv r hr
    · subst hr; exact hq
    · exact hinv r hr
    · subst hr; exact hq
  refine ⟨fun rows newId sel hinv => haddq rows newId sel 1 hinv le_rfl, haddq,
    ?_, ?_, ?_, ?_, ?_, ?_, ?_⟩
  · intro rows rid hinv r hr
    exact hinv r (List.mem_of_mem_filter hr)
  · intro rows i hinv r hr
    exact hinv r (moveRowUp_mem hr)
  · intro rows i hinv r hr
    exact hinv r (moveRowDown_mem hr)
  · intro rows rid preco hinv r hr
    simp only [onPrecoUnitChange, List.mem_map] at hr
    obtain ⟨r0, hr0, hfr⟩ := hr
    subst hfr
    by_cases h : r0.id = rid <;> simp [h] <;> exact hinv r0 hr0
  · intro rows rid pid nome peso codigo pm hinv r hr
    simp only [applySelectSuggestion, List.mem_map] at hr
    obtain ⟨r0, hr0, hfr⟩ := hr
    subst hfr
    by_cases h : r0.id = rid <;> simp [h] <;> exact hinv r0 hr0
  · intro rows rid hinv r hr
    simp only [resetProductSelection, List.mem_map] at hr
    obtain ⟨r0, hr0, hfr⟩ := hr
    subst hfr
    by_cases h : r0.id = rid <;> simp [h] <;> exact hinv r0 hr0
  · intro rows rid q hinv hq r hr
    simp only [onQuantidadeChange, List.mem_map] at hr
    obtain ⟨r0, hr0, hfr⟩ := hr
    subst hfr
    by_cases h : r0.id = rid <;> simp [h]
    · exact hq
    · exact hinv r0 hr0

theorem claim_C9_witness :
    QtyInv (addRow [] "r1" none 1) ∧
    QtyInv (onQuantidadeChange (addRow [] "r1" none 1) "r1" 3) :=
  ⟨claim_C9.1 [] "r1" none (fun r hr => absurd hr (List.not_mem_nil r)),
   claim_C9.2.2.2.2.2.2.2.2 (addRow [] "r1" none 1) "r1" 3
     (claim_C9.1 [] "r1" none (fun r hr => absurd hr (List.not_mem_nil r)))
     (by norm_num)⟩

/-! Claim C8: termination of the recursive searches on cyclic records.
The fuel-indexed heap functions stabilize once the fuel exceeds the node
count: past that point the visited-set guard alone bounds the recursion,
which is the termination content of the claim. -/

theorem findFieldG_seen (h : JsHeap) (names : List String) (fuel n : Nat)
    (path : List String) (seen : List Nat) (hs : n ∈ seen) :
    findFieldG h names fuel n path seen = (none, seen) := by
  cases fuel with
  | zero => simp [findFieldG]
  | succ fuel => simp [findFieldG, hs]

theorem filter_len_imp {α : Type} (p q : α → Bool)
    (himp : ∀ a, p a = true → q a = true) :
    ∀ l : List α, (l.filter p).length ≤ (l.filter q).length := by
  intro l
  induction l with
  | nil => simp
  | cons a l ih =>
    cases hp : p a with
    | true =>
      simp [List.filter_cons, hp, himp a hp]
      omega
    | false =>
      cases hq : q a with
      | true =>
        simp [List.filter_cons, hp, hq]
        omega
      | false =>
        simp [List.filter_cons, hp, hq]
        exact ih

theorem filter_len_lt {α : Type} (p q : α → Bool)
    (himp : ∀ a, p a = true → q a = true) (l : List α) (a : α) (ha : a ∈ l)
    (hqa : q a = true) (hpa : p a = false) :
    (l.filter p).length < (l.filter q).length := by
  induction l with
  | nil => cases ha
  | cons b l ih =>
    rcases List.mem_cons.mp ha with rfl | hal
    · have hle := filter_len_imp p q himp l
      simp [List.filter_cons, hpa, hqa]
      omega
    · cases hpb : p b with
      | true =>
        have hih := ih hal
        simp [List.filter_cons, hpb, himp b hpb]
        omega
      | false =>
        cases hqb : q b with
        | true =>
          have hih := ih hal
          simp [List.filter_cons, hpb, hqb]
          omega
        | false =>
          have hih := ih hal
          simp [List.filter_cons, hpb, hqb]
          omega

theorem unvisited_le (h : JsHeap) (seen : List Nat) : unvisited h seen ≤ h.size := by
  unfold unvisited
  exact le_of_le_of_eq (List.length_filter_le _ _) (List.length_range _)

theorem unvisited_mono (h : JsHeap) {seen seen2 : List Nat} (hsub : seen ⊆ seen2) :
    unvisited h seen2 ≤ unvisited h seen := by
  unfold unvisited
  apply filter_len_imp
  intro a hp
  simp only [Bool.not_eq_eq_eq_not, Bool.not_true, decide_eq_false_iff_not] at hp ⊢
  exact fun hmem => hp (hsub hmem)

theorem unvisited_cons_lt (h : JsHeap) {n : Nat} {seen : List Nat} (hn : n < h.size)
    (hns : n ∉ seen) : unvisited h (n :: seen) < unvisited h seen := by
  unfold unvisited
  apply filter_len_lt _ _ ?_ (List.range h.size) n (List.mem_range.mpr hn) ?_ ?_
  · intro a hp
    simp only [Bool.not_eq_eq_eq_not, Bool.not_true, decide_eq_false_iff_not,
      List.mem_cons] at hp ⊢
    exact fun hmem => hp (Or.inr hmem)
  · simp only [Bool.not_eq_eq_eq_not, Bool.not_true, decide_eq_false_iff_not]
    exact hns
  · simp

theorem wf_fields {h : JsHeap} (hwf : h.WFb = true) (n : Nat) :
    refsBounded h.size (h.fields n) = true := by
  unfold JsHeap.fields
  rw [List.getD_eq_getD_get?]
  cases hg : h.nodes.get? n with
  | none => rfl
  | some fs =>
    simp only [Option.getD_some]
    exact List.all_eq_true.mpr fun kv hkv =>
      List.all_eq_true.mp (List.all_eq_true.mp hwf fs (List.get?_mem hg)) kv hkv

theorem refsBounded_cons {b : Nat} {k : String} {v : GVal} {rest : List (String × GVal)}
    (h : refsBounded b ((k, v) :: rest) = true) :
    refsBounded b rest = true ∧ ∀ m, v = .gRef m → m < b := by
  simp only [refsBounded, List.all_cons, Bool.and_eq_true] at h
  refine ⟨h.2, ?_⟩
  intro m hm
  subst hm
  simpa using h.1

mutual
theorem ffg_seen_sub (h : JsHeap) (names : List String) (fuel n : Nat)
    (path : List String) (seen : List Nat) :
    seen ⊆ (findFieldG h names fuel n path seen).2 := by
  cases fuel with
  | zero => simp [findFieldG]
  | succ fuel =>
    by_cases hs : n ∈ seen
    · simp [findFieldG, hs]
    · rcases hp : gPhase1 names path (h.fields n) with _ | hit
      · simp only [findFieldG, if_neg hs, hp]
        exact (List.subset_cons_self n seen).trans
          (ffgKids_seen_sub h names fuel (h.fields n) path (n :: seen))
      · simp only [findFieldG, if_neg hs, hp]
        exact List.subset_cons_self n seen
termination_by (fuel, 0)

theorem ffgKids_seen_sub (h : JsHeap) (names : List String) (fuel : Nat)
    (fs : List (String × GVal)) (path : List String) (seen : List Nat) :
    seen ⊆ (ffgKids h names fuel fs path seen).2 := by
  match fs with
  | [] => simp [ffgKids]
  | (k, v) :: rest =>
    cases v with
    | gRef m =>
      rcases hres : findFieldG h names fuel m (path ++ [k]) seen with ⟨o, s2⟩
      have h1 : seen ⊆ s2 := by
        have h2 := ffg_seen_sub h names fuel m (path ++ [k]) seen
        rw [hres] at h2
        exact h2
      cases o with
      | some hit => simp only [ffgKids, hres]; exact h1
      | none =>
        simp only [ffgKids, hres]
        exact h1.trans (ffgKids_seen_sub h names fuel rest path s2)
    | gNull => simp only [ffgKids]; exact ffgKids_seen_sub h names fuel rest path seen
    | gNum q => simp only [ffgKids]; exact ffgKids_seen_sub h names fuel rest path seen
    | gStr s => simp only [ffgKids]; exact ffgKids_seen_sub h names fuel rest path seen
termination_by (fuel, fs.length + 1)
end

theorem ffgKids_stab_of (h : JsHeap) (names : List String) (fuel : Nat)
    (hP : ∀ (n : Nat) (path : List String) (seen : List Nat), n < h.size →
      unvisited h seen < fuel →
      findFieldG h names fuel n path seen = findFieldG h names (fuel + 1) n path seen) :
    ∀ (fs : List (String × GVal)) (path : List String) (seen : List Nat),
      refsBounded h.size fs = true → unvisited h seen < fuel →
      ffgKids h names fuel fs path seen = ffgKids h names (fuel + 1) fs path seen := by
  intro fs
  induction fs with
  | nil => intro path seen _ _; simp [ffgKids]
  | cons kv rest ih =>
    obtain ⟨k, v⟩ := kv
    intro path seen hrefs hu
    obtain ⟨hrest, href⟩ := refsBounded_cons hrefs
    cases v with
    | gRef m =>
      have hm : m < h.size := href m rfl
      have heq := hP m (path ++ [k]) seen hm hu
      simp only [ffgKids]
      rw [← heq]
      rcases hres : findFieldG h names fuel m (path ++ [k]) seen with ⟨o, s2⟩
      cases o with
      | some hit => rfl
      | none =>
        have hsub : seen ⊆ s2 := by
          have h2 := ffg_seen_sub h names fuel m (path ++ [k]) seen
          rw [hres] at h2
          exact h2
        exact ih path s2 hrest (lt_of_le_of_lt (unvisited_mono h hsub) hu)
    | gNull => simp only [ffgKids]; exact ih path seen hrest hu
    | gNum q => simp only [ffgKids]; exact ih path seen hrest hu
    | gStr s => simp only [ffgKids]; exact ih path seen hrest hu

theorem ffg_stab (h : JsHeap) (names : List String) (hwf : h.WFb = true) :
    ∀ (fuel n : Nat) (path : List String) (seen : List Nat), n < h.size →
      unvisited h seen < fuel →
      findFieldG h names fuel n path seen = findFieldG h names (fuel + 1) n path seen := by
  intro fuel
  induction fuel with
  | zero => intro n path seen _ hu; exact absurd hu (Nat.not_lt_zero _)
  | succ fuel ih =>
    intro n path seen hn hu
    by_cases hs : n ∈ seen
    · rw [findFieldG_seen h names (fuel + 1) n path seen hs,
        findFieldG_seen h names (fuel + 1 + 1) n path seen hs]
    · rcases hp : gPhase1 names path (h.fields n) with _ | hit
      · simp only [findFieldG, if_neg hs, hp]
        have hu2 : unvisited h (n :: seen) < fuel :=
          lt_of_lt_of_le (unvisited_cons_lt h hn hs) (Nat.lt_succ_iff.mp hu)
        exact ffgKids_stab_of h names fuel ih (h.fields n) path (n :: seen)
          (wf_fields hwf n) hu2
      · simp only [findFieldG, if_neg hs, hp]

theorem ffg_indep (h : JsHeap) (names : List String) (hwf : h.WFb = true) :
    ∀ (fuel1 fuel2 n : Nat) (path : List String) (seen : List Nat), n < h.size →
      h.size < fuel1 → h.size < fuel2 →
      findFieldG h names fuel1 n path seen = findFieldG h names fuel2 n path seen := by
  have hstep : ∀ (k fuel n : Nat) (path : List String) (seen : List Nat), n < h.size →
      h.size < fuel →
      findFieldG h names (fuel + k) n path seen = findFieldG h names fuel n path seen := by
    intro k
    induction k with
    | zero => intro fuel n path seen _ _; rfl
    | succ k ih =>
      intro fuel n path seen hn hf
      have h1 : findFieldG h names (fuel + k) n path seen =
          findFieldG h names (fuel + k + 1) n path seen :=
        ffg_stab h names hwf (fuel + k) n path seen hn
          (lt_of_le_of_lt (unvisited_le h seen) (lt_of_lt_of_le hf (Nat.le_add_right fuel k)))
      rw [show fuel + (k + 1) = fuel + k + 1 from rfl, ← h1, ih fuel n path seen hn hf]
  intro fuel1 fuel2 n path seen hn h1 h2
  rcases Nat.le_total fuel1 fuel2 with hle | hle
  · obtain ⟨k, rfl⟩ : ∃ k, fuel2 = fuel1 + k := ⟨fuel2 - fuel1, by omega⟩
    exact (hstep k fuel1 n path seen hn h1).symm
  · obtain ⟨k, rfl⟩ : ∃ k, fuel1 = fuel2 + k := ⟨fuel1 - fuel2, by omega⟩
    exact hstep k fuel2 n path seen hn h2

theorem refsBounded_map {b : Nat} :
    ∀ {fs : List (String × GVal)}, refsBounded b fs = true →
      refsBoundedV b (fs.map Prod.snd) = true := by
  intro fs
  induction fs with
  | nil => intro _; rfl
  | cons kv rest ih =>
    intro h
    simp only [refsBounded, List.all_cons, Bool.and_eq_true] at h
    simp only [List.map_cons, refsBoundedV, List.all_cons, Bool.and_eq_true]
    exact ⟨h.1, ih h.2⟩

theorem refsBoundedV_cons {b : Nat} {v : GVal} {rest : List GVal}
    (h : refsBoundedV b (v :: rest) = true) :
    refsBoundedV b rest = true ∧ ∀ m, v = .gRef m → m < b := by
  simp only [refsBoundedV, List.all_cons, Bool.and_eq_true] at h
  refine ⟨h.2, ?_⟩
  intro m hm
  subst hm
  simpa using h.1

mutual
theorem fpg_seen_sub (h : JsHeap) (fuel n : Nat) (seen : List Nat) :
    seen ⊆ (findPriceG h fuel n seen).2 := by
  cases fuel with
  | zero => simp [findPriceG]
  | succ fuel =>
    by_cases hs : n ∈ seen
    · simp [findPriceG, hs]
    · have hdead : findFieldG h tabelaFields fuel n [] (n :: seen) = (none, n :: seen) :=
        findFieldG_seen h tabelaFields fuel n [] (n :: seen) (List.mem_cons_self n seen)
      simp only [findPriceG, if_neg hs, hdead]
      exact (List.subset_cons_self n seen).trans (fpgRest_seen_sub h fuel n (n :: seen))
termination_by (fuel, 0)

theorem fpgRest_seen_sub (h : JsHeap) (fuel n : Nat) (seen : List Nat) :
    seen ⊆ (fpgRest h fuel n seen).2 := by
  rcases h2 : step2G priorityKeys (h.fields n) with _ | p
  · rcases h3 : step3G (h.fields n) with _ | p
    · cases ha : h.isArr n with
      | true =>
        rcases he : fpgElems h fuel ((h.fields n).map Prod.snd) seen with ⟨o, s2⟩
        have h1 : seen ⊆ s2 := by
          have h4 := fpgElems_seen_sub h fuel ((h.fields n).map Prod.snd) seen
          rw [he] at h4
          exact h4
        cases o with
        | some p => simp only [fpgRest, h2, h3, ha, if_true, he]; exact h1
        | none =>
          simp only [fpgRest, h2, h3, ha, if_true, he]
          exact h1.trans (fpgStep5_seen_sub h fuel (h.fields n) s2)
      | false =>
        simp only [fpgRest, h2, h3, ha, Bool.false_eq_true, if_false]
        exact fpgStep5_seen_sub h fuel (h.fields n) seen
    · simp only [fpgRest, h2, h3]
      exact List.Subset.refl seen
  · simp only [fpgRest, h2]
    exact List.Subset.refl seen
termination_by (fuel, (h.fields n).length + 2)

theorem fpgElems_seen_sub (h : JsHeap) (fuel : Nat) (es : List GVal) (seen : List Nat) :
    seen ⊆ (fpgElems h fuel es seen).2 := by
  match es with
  | [] => simp [fpgElems]
  | v :: rest =>
    cases v with
    | gRef m =>
      rcases hres : findPriceG h fuel m seen with ⟨o, s2⟩
      have h1 : seen ⊆ s2 := by
        have h2 := fpg_seen_sub h fuel m seen
        rw [hres] at h2
        exact h2
      cases o with
      | some p => simp only [fpgElems, hres]; exact h1
      | none =>
        simp only [fpgElems, hres]
        exact h1.trans (fpgElems_seen_sub h fuel rest s2)
    | gNull =>
      simp only [fpgElems, gScalarPrice]
      exact fpgElems_seen_sub h fuel rest seen
    | gNum q =>
      simp only [fpgElems, gScalarPrice]
      by_cases hq : 0 < q
      · simp [hq]
      · simp only [if_neg hq]
        exact fpgElems_seen_sub h fuel rest seen
    | gStr s =>
      simp only [fpgElems, gScalarPrice]
      rcases hp : parseToNumberStr s with _ | p
      · exact fpgElems_seen_sub h fuel rest seen
      · by_cases hq : 0 < p
        · simp [hq]
        · simp only [if_neg hq]
          exact fpgElems_seen_sub h fuel rest seen
termination_by (fuel, es.length + 1)

theorem fpgStep5_seen_sub (h : JsHeap) (fuel : Nat) (fs : List (String × GVal))
    (seen : List Nat) : seen ⊆ (fpgStep5 h fuel fs seen).2 := by
  match fs with
  | [] => simp [fpgStep5]
  | (k, v) :: rest =>
    cases v with
    | gRef m =>
      rcases hres : findPriceG h fuel m seen with ⟨o, s2⟩
      have h1 : seen ⊆ s2 := by
        have h2 := fpg_seen_sub h fuel m seen
        rw [hres] at h2
        exact h2
      cases o with
      | some p => simp only [fpgStep5, hres]; exact h1
      | none =>
        simp only [fpgStep5, hres]
        exact h1.trans (fpgStep5_seen_sub h fuel rest s2)
    | gNull =>
      simp only [fpgStep5, gParse]
      exact fpgStep5_seen_sub h fuel rest seen
    | gNum q =>
      simp only [fpgStep5, gParse]
      by_cases hq : 0 < q
      · simp [hq]
      · simp only [if_neg hq]
        exact fpgStep5_seen_sub h fuel rest seen
    | gStr s =>
      simp only [fpgStep5, gParse]
      rcases hp : parseToNumberStr s with _ | p
      · exact fpgStep5_seen_sub h fuel rest seen
      · by_cases hq : 0 < p
        · simp [hq]
        · simp only [if_neg hq]
          exact fpgStep5_seen_sub h fuel rest seen
termination_by (fuel, fs.length + 1)
end

theorem fpgElems_stab_of (h : JsHeap) (fuel : Nat)
    (hP : ∀ (n : Nat) (seen : List Nat), n < h.size → unvisited h seen < fuel →
      findPriceG h fuel n seen = findPriceG h (fuel + 1) n seen) :
    ∀ (es : List GVal) (seen : List Nat), refsBoundedV h.size es = true →
      unvisited h seen < fuel →
      fpgElems h fuel es seen = fpgElems h (fuel + 1) es seen := by
  intro es
  induction es with
  | nil => intro seen _ _; simp [fpgElems]
  | cons v rest ih =>
    intro seen hrefs hu
    obtain ⟨hrest, href⟩ := refsBoundedV_cons hrefs
    cases v with
    | gRef m =>
      have hm : m < h.size := href m rfl
      have heq := hP m seen hm hu
      simp only [fpgElems]
      rw [← heq]
      rcases hres : findPriceG h fuel m seen with ⟨o, s2⟩
      cases o with
      | some p => rfl
      | none =>
        have hsub : seen ⊆ s2 := by
          have h2 := fpg_seen_sub h fuel m seen
          rw [hres] at h2
          exact h2
        exact ih s2 hrest (lt_of_le_of_lt (unvisited_mono h hsub) hu)
    | gNull => simp only [fpgElems, gScalarPrice]; exact ih seen hrest hu
    | gNum q =>
      simp only [fpgElems, gScalarPrice]
      by_cases hq : 0 < q
      · simp [hq]
      · simp only [if_neg hq]
        exact ih seen hrest hu
    | gStr s =>
      simp only [fpgElems, gScalarPrice]
      rcases hp : parseToNumberStr s with _ | p
      · exact ih seen hrest hu
      · by_cases hq : 0 < p
        · simp [hq]
        · simp only [if_neg hq]
          exact ih seen hrest hu

theorem fpgStep5_stab_of (h : JsHeap) (fuel : Nat)
    (hP : ∀ (n : Nat) (seen : List Nat), n < h.size → unvisited h seen < fuel →
      findPriceG h fuel n seen = findPriceG h (fuel + 1) n seen) :
    ∀ (fs : List (String × GVal)) (seen : List Nat), refsBounded h.size fs = true →
      unvisited h seen < fuel →
      fpgStep5 h fuel fs seen = fpgStep5 h (fuel + 1) fs seen := by
  intro fs
  induction fs with
  | nil => intro seen _ _; simp [fpgStep5]
  | cons kv rest ih =>
    obtain ⟨k, v⟩ := kv
    intro seen hrefs hu
    obtain ⟨hrest, href⟩ := refsBounded_cons hrefs
    cases v with
    | gRef m =>
      have hm : m < h.size := href m rfl
      have heq := hP m seen hm hu
      simp only [fpgStep5]
      rw [← heq]
      rcases hres : findPriceG h fuel m seen with ⟨o, s2⟩
      cases o with
      | some p => rfl
      | none =>
        have hsub : seen ⊆ s2 := by
          have h2 := fpg_seen_sub h fuel m seen
          rw [hres] at h2
          exact h2
        exact ih s2 hrest (lt_of_le_of_lt (unvisited_mono h hsub) hu)
    | gNull => simp only [fpgStep5, gParse]; exact ih seen hrest hu
    | gNum q =>
      simp only [fpgStep5, gParse]
      by_cases hq : 0 < q
      · simp [hq]
      · simp only [if_neg hq]
        exact ih seen hrest hu
    | gStr s =>
      simp only [fpgStep5, gParse]
      rcases hp : parseToNumberStr s with _ | p
      · exact ih seen hrest hu
      · by_cases hq : 0 < p
        · simp [hq]
        · simp only [if_neg hq]
          exact ih seen hrest hu

theorem fpgRest_stab_of (h : JsHeap) (fuel : Nat) (hwf : h.WFb = true)
    (hP : ∀ (n : Nat) (seen : List Nat), n < h.size → unvisited h seen < fuel →
      findPriceG h fuel n seen = findPriceG h (fuel + 1) n seen) :
    ∀ (n : Nat) (seen : List Nat), unvisited h seen < fuel →
      fpgRest h fuel n seen = fpgRest h (fuel + 1) n seen := by
  intro n seen hu
  rcases h2 : step2G priorityKeys (h.fields n) with _ | p
  · rcases h3 : step3G (h.fields n) with _ | p
    · cases ha : h.isArr n with
      | true =>
        have helems := fpgElems_stab_of h fuel hP ((h.fields n).map Prod.snd) seen
          (refsBounded_map (wf_fields hwf n)) hu
        simp only [fpgRest, h2, h3, ha, if_true]
        rw [← helems]
        rcases he : fpgElems h fuel ((h.fields n).map Prod.snd) seen with ⟨o, s2⟩
        cases o with
        | some p => rfl
        | none =>
          have hsub : seen ⊆ s2 := by
            have h4 := fpgElems_seen_sub h fuel ((h.fields n).map Prod.snd) seen
            rw [he] at h4
            exact h4
          exact fpgStep5_stab_of h fuel hP (h.fields n) s2 (wf_fields hwf n)
            (lt_of_le_of_lt (unvisited_mono h hsub) hu)
      | false =>
        simp only [fpgRest, h2, h3, ha, Bool.false_eq_true, if_false]
        exact fpgStep5_stab_of h fuel hP (h.fields n) seen (wf_fields hwf n) hu
    · simp only [fpgRest, h2, h3]
  · simp only [fpgRest, h2]

theorem fpg_stab (h : JsHeap) (hwf : h.WFb = true) :
    ∀ (fuel n : Nat) (seen : List Nat), n < h.size → unvisited h seen < fuel →
      findPriceG h fuel n seen = findPriceG h (fuel + 1) n seen := by
  intro fuel
  induction fuel with
  | zero => intro n seen _ hu; exact absurd hu (Nat.not_lt_zero _)
  | succ fuel ih =>
    intro n seen hn hu
    by_cases hs : n ∈ seen
    · have d1 : findPriceG h (fuel + 1) n seen = (none, seen) := by simp [findPriceG, hs]
      have d2 : findPriceG h (fuel + 1 + 1) n seen = (none, seen) := by
        simp [findPriceG, hs]
      rw [d1, d2]
    · have hdead1 : findFieldG h tabelaFields fuel n [] (n :: seen) = (none, n :: seen) :=
        findFieldG_seen h tabelaFields fuel n [] (n :: seen) (List.mem_cons_self n seen)
      have hdead2 : findFieldG h tabelaFields (fuel + 1) n [] (n :: seen) =
          (none, n :: seen) :=
        findFieldG_seen h tabelaFields (fuel + 1) n [] (n :: seen) (List.mem_cons_self n seen)
      simp only [findPriceG, if_neg hs, hdead1, hdead2]
      have hu2 : unvisited h (n :: seen) < fuel :=
        lt_of_lt_of_le (unvisited_cons_lt h hn hs) (Nat.lt_succ_iff.mp hu)
      exact fpgRest_stab_of h fuel hwf ih n (n :: seen) hu2

theorem fpg_indep (h : JsHeap) (hwf : h.WFb = true) :
    ∀ (fuel1 fuel2 n : Nat) (seen : List Nat), n < h.size →
      h.size < fuel1 → h.size < fuel2 →
      findPriceG h fuel1 n seen = findPriceG h fuel2 n seen := by
  have hstep : ∀ (k fuel n : Nat) (seen : List Nat), n < h.size → h.size < fuel →
      findPriceG h (fuel + k) n seen = findPriceG h fuel n seen := by
    intro k
    induction k with
    | zero => intro fuel n seen _ _; rfl
    | succ k ih =>
      intro fuel n seen hn hf
      have h1 : findPriceG h (fuel + k) n seen = findPriceG h (fuel + k + 1) n seen :=
        fpg_stab h hwf (fuel + k) n seen hn
          (lt_of_le_of_lt (unvisited_le h seen) (lt_of_lt_of_le hf (Nat.le_add_right fuel k)))
      rw [show fuel + (k + 1) = fuel + k + 1 from rfl, ← h1, ih fuel n seen hn hf]
  intro fuel1 fuel2 n seen hn h1 h2
  rcases Nat.le_total fuel1 fuel2 with hle | hle
  · obtain ⟨k, rfl⟩ : ∃ k, fuel2 = fuel1 + k := ⟨fuel2 - fuel1, by omega⟩
    exact (hstep k fuel1 n seen hn h1).symm
  · obtain ⟨k, rfl⟩ : ∃ k, fuel1 = fuel2 + k := ⟨fuel1 - fuel2, by omega⟩
    exact hstep k fuel2 n seen hn h2

/-- C8: findFieldRecursive and findPriceInObject track visited container
references and never revisit one, so both terminate on every record
including cyclic ones: on the heap embedding with explicit references
both searches give the same result for every fuel beyond the heap node
count, for every well-formed heap, start node and visited set — past
that depth the visited-set guard alone bounds the recursion.  On
concrete cyclic records the results agree with cycle-free counterparts:
the self-referencing record with a Preco_ens field yields the same hit
as the record with the cycle edge unrolled once, and the pure
self-reference yields not-found on both sides. -/
theorem claim_C8 :
    (∀ (h : JsHeap) (names : List String) (fuel1 fuel2 n : Nat) (path : List String)
      (seen : List Nat), h.WFb = true → n < h.size → h.size < fuel1 → h.size < fuel2 →
      findFieldG h names fuel1 n path seen = findFieldG h names fuel2 n path seen) ∧
    (∀ (h : JsHeap) (fuel1 fuel2 n : Nat) (seen : List Nat),
      h.WFb = true → n < h.size → h.size < fuel1 → h.size < fuel2 →
      findPriceG h fuel1 n seen = findPriceG h fuel2 n seen) ∧
    (findFieldG ⟨[[("self", .gRef 0), ("Preco_ens", .gStr "50,00")]], [false]⟩
      ["Preco_ens"] 2 0 [] []).1 = some ⟨"Preco_ens", .gStr "50,00", ["Preco_ens"]⟩ ∧
    findFieldRecursive false
      (.vObj [("self", .vObj [("self", .vNull)]), ("Preco_ens", .vStr "50,00")])
      ["Preco_ens"] [] = some ⟨"Preco_ens", .vStr "50,00", ["Preco_ens"]⟩ ∧
    (findPriceG ⟨[[("a", .gRef 0)]], [false]⟩ 2 0 []).1 = none ∧
    findPriceInObject (.vObj [("a", .vObj [("a", .vNull)])]) = none := by
  refine ⟨?_, ?_, ?_, ?_, ?_, ?_⟩
  · intro h names fuel1 fuel2 n path seen hwf hn h1 h2
    exact ffg_indep h names hwf fuel1 fuel2 n path seen hn h1 h2
  · intro h fuel1 fuel2 n seen hwf hn h1 h2
    exact fpg_indep h hwf fuel1 fuel2 n seen hn h1 h2
  · have hk1 : keyMatchesAny "self" ["Preco_ens"] = false := by decide
    have hk2 : keyMatchesAny "Preco_ens" ["Preco_ens"] = true := by decide
    have hsk : gSkipVal (GVal.gStr "50,00") = false := by decide
    have hf : JsHeap.fields ⟨[[("self", GVal.gRef 0), ("Preco_ens", GVal.gStr "50,00")]],
        [false]⟩ 0 = [("self", GVal.gRef 0), ("Preco_ens", GVal.gStr "50,00")] := rfl
    rw [show (2 : ℕ) = 1 + 1 from rfl]
    simp [findFieldG, hf, gPhase1, gSkipVal, hk1, hk2, hsk]
  · have hk1 : keyMatchesAny "self" ["Preco_ens"] = false := by decide
    have hk2 : keyMatchesAny "Preco_ens" ["Preco_ens"] = true := by decide
    simp [findFieldRecursive, ffr, phase1, skipVal, hk1, hk2]
  · have hs2 : step2G priorityKeys [("a", GVal.gRef 0)] = none := by decide
    have hs3 : step3G [("a", GVal.gRef 0)] = none := by decide
    have hf : JsHeap.fields ⟨[[("a", GVal.gRef 0)]], [false]⟩ 0 = [("a", GVal.gRef 0)] := rfl
    have ha : JsHeap.isArr ⟨[[("a", GVal.gRef 0)]], [false]⟩ 0 = false := rfl
    have hdead : findFieldG ⟨[[("a", GVal.gRef 0)]], [false]⟩ tabelaFields 1 0 [] [0] =
        (none, [0]) := findFieldG_seen _ _ _ _ _ _ (by simp)
    have hinner : findPriceG ⟨[[("a", GVal.gRef 0)]], [false]⟩ 1 0 [0] = (none, [0]) := by
      rw [show (1 : ℕ) = 0 + 1 from rfl]
      simp [findPriceG]
    rw [show (2 : ℕ) = 1 + 1 from rfl]
    simp [findPriceG, hdead, fpgRest, hf, hs2, hs3, ha, fpgStep5, hinner]
  · have h2a : step2 priorityKeys [("a", JsVal.vObj [("a", JsVal.vNull)])] = none := by decide
    have h2b : step2 priorityKeys [("a", JsVal.vNull)] = none := by decide
    have h3a : step3 [("a", JsVal.vObj [("a", JsVal.vNull)])] = none := by decide
    have h3b : step3 [("a", JsVal.vNull)] = none := by decide
    simp [findPriceInObject, fpo, fpoObjRest, fpoFields, findFieldRecursive,
      h2a, h2b, h3a, h3b, parseToNumber, isContainer]

theorem claim_C8_witness :
    JsHeap.WFb ⟨[[("self", GVal.gRef 0), ("Preco_ens", GVal.gStr "50,00")]], [false]⟩ =
      true ∧
    findFieldG ⟨[[("self", GVal.gRef 0), ("Preco_ens", GVal.gStr "50,00")]], [false]⟩
        ["Preco_ens"] 2 0 [] [] =
      findFieldG ⟨[[("self", GVal.gRef 0), ("Preco_ens", GVal.gStr "50,00")]], [false]⟩
        ["Preco_ens"] 3 0 [] [] ∧
    findPriceG ⟨[[("self", GVal.gRef 0), ("Preco_ens", GVal.gStr "50,00")]], [false]⟩
        2 0 [] =
      findPriceG ⟨[[("self", GVal.gRef 0), ("Preco_ens", GVal.gStr "50,00")]], [false]⟩
        3 0 [] := by
  refine ⟨by decide, ?_, ?_⟩
  · exact claim_C8.1 _ ["Preco_ens"] 2 3 0 [] [] (by decide) (by decide) (by decide)
      (by decide)
  · exact claim_C8.2.1 _ 2 3 0 [] (by decide) (by decide) (by decide) (by decide)
